import Mathlib

/-!
# sigstore `pkg/signature`: the signing payload and `SignImage`

A shallow embedding of `pkg/signature/payload/payload.go` and
`pkg/signature/util.go`, together with the parts of Go's `encoding/json`
and of `go-containerregistry/pkg/name` that these two files call.

* A Go `[]byte` is the list of its byte values.
* A Go `string` is a Lean `String`: a Go string holding valid UTF-8.
* A Go numeric value is carried by its decimal literal (`Number`).
* Stateful collaborators (the signer) pass their state explicitly.
-/

namespace Sigstore

/-! ## Bytes and UTF-8 -/

/-- A Go byte slice: the list of its byte values (each below 256). -/
abbrev Bytes := List Nat

/-- The UTF-8 encoding of one code point. -/
def utf8EncodeRune (n : Nat) : Bytes :=
  if n < 0x80 then [n]
  else if n < 0x800 then [0xC0 + n / 0x40, 0x80 + n % 0x40]
  else if n < 0x10000 then [0xE0 + n / 0x1000, 0x80 + n / 0x40 % 0x40, 0x80 + n % 0x40]
  else [0xF0 + n / 0x40000, 0x80 + n / 0x1000 % 0x40, 0x80 + n / 0x40 % 0x40, 0x80 + n % 0x40]

/-- The UTF-8 encoding of a text. -/
def utf8Encode : List Char → Bytes
  | [] => []
  | c :: cs => utf8EncodeRune c.toNat ++ utf8Encode cs

/-- A continuation byte `10xxxxxx`. -/
def isCont (b : Nat) : Bool := decide (0x80 ≤ b) && decide (b < 0xC0)

/-- A Unicode scalar value: a code point that is not a surrogate. -/
def isScalar (n : Nat) : Bool := decide (n < 0xD800) || (decide (0xDFFF < n) && decide (n < 0x110000))

/-- The code point at the head of UTF-8 bytes and the bytes after it; nothing
for a truncated, overlong, surrogate or out-of-range sequence. -/
def decodeRune : Bytes → Option (Char × Bytes)
  | [] => none
  | b0 :: t =>
    if b0 < 0x80 then some (Char.ofNat b0, t)
    else if b0 < 0xC0 then none
    else if b0 < 0xE0 then
      match t with
      | b1 :: t1 =>
        if isCont b1 && decide (0x80 ≤ (b0 - 0xC0) * 0x40 + (b1 - 0x80)) then
          some (Char.ofNat ((b0 - 0xC0) * 0x40 + (b1 - 0x80)), t1)
        else none
      | _ => none
    else if b0 < 0xF0 then
      match t with
      | b1 :: b2 :: t2 =>
        if isCont b1 && isCont b2
            && decide (0x800 ≤ (b0 - 0xE0) * 0x1000 + (b1 - 0x80) * 0x40 + (b2 - 0x80))
            && isScalar ((b0 - 0xE0) * 0x1000 + (b1 - 0x80) * 0x40 + (b2 - 0x80)) then
          some (Char.ofNat ((b0 - 0xE0) * 0x1000 + (b1 - 0x80) * 0x40 + (b2 - 0x80)), t2)
        else none
      | _ => none
    else if b0 < 0xF8 then
      match t with
      | b1 :: b2 :: b3 :: t3 =>
        if isCont b1 && isCont b2 && isCont b3
            && decide (0x10000 ≤ (b0 - 0xF0) * 0x40000 + (b1 - 0x80) * 0x1000 + (b2 - 0x80) * 0x40 + (b3 - 0x80))
            && isScalar ((b0 - 0xF0) * 0x40000 + (b1 - 0x80) * 0x1000 + (b2 - 0x80) * 0x40 + (b3 - 0x80)) then
          some (Char.ofNat ((b0 - 0xF0) * 0x40000 + (b1 - 0x80) * 0x1000 + (b2 - 0x80) * 0x40 + (b3 - 0x80)), t3)
        else none
      | _ => none
    else none

/-- Decodes code point after code point; the first argument bounds their number. -/
def utf8DecodeAux : Nat → Bytes → Option (List Char)
  | _, [] => some []
  | 0, _ :: _ => none
  | fuel + 1, b :: t =>
    match decodeRune (b :: t) with
    | none => none
    | some (c, rest) => (utf8DecodeAux fuel rest).map (fun cs => c :: cs)

/-- Strict UTF-8 decoding of a whole byte slice. -/
def utf8Decode (data : Bytes) : Option (List Char) := utf8DecodeAux data.length data

/-! ## JSON documents -/

/-- A JSON number, by its literal: sign, integer part, fraction digits (none when
the list is empty) and exponent, as in `-12.5e+3`. Go's `strconv` writes every
finite `float64` and every integer in this shape. -/
structure Number where
  negative : Bool
  integer : Nat
  fraction : List (Fin 10)
  exponent : Option Int
deriving DecidableEq, Repr

/-- A JSON document. An object keeps its members in document order, duplicates included. -/
inductive JSON where
  | null
  | bool (b : Bool)
  | number (n : Number)
  | string (s : String)
  | array (elems : List JSON)
  | object (members : List (String × JSON))
deriving Repr

/-! ## Writing JSON, as `encoding/json` does (compact, HTML-safe escaping) -/

def quote : Char := Char.ofNat 0x22
def backslash : Char := Char.ofNat 0x5C

/-- The character for a decimal digit. -/
def digitChar (d : Nat) : Char := Char.ofNat (48 + d)

/-- The character for a hexadecimal digit, lower case. -/
def hexChar (d : Nat) : Char := if d < 10 then Char.ofNat (48 + d) else Char.ofNat (87 + d)

/-- Decimal digits of `n`, most significant first, in front of `acc`. -/
def renderNatAux : Nat → Nat → List Char → List Char
  | 0, _, acc => acc
  | fuel + 1, n, acc =>
    if n < 10 then digitChar n :: acc
    else renderNatAux fuel (n / 10) (digitChar (n % 10) :: acc)

/-- Decimal form of a natural number (`strconv.AppendUint`). -/
def renderNat (n : Nat) : List Char := renderNatAux (n + 1) n []

def renderFraction : List (Fin 10) → List Char
  | [] => []
  | ds => '.' :: ds.map (fun d => digitChar d.val)

def renderExponent : Option Int → List Char
  | none => []
  | some e => 'e' :: (if e < 0 then '-' else '+') :: renderNat e.natAbs

def renderNumber (n : Number) : List Char :=
  (if n.negative then ['-'] else []) ++ renderNat n.integer ++ renderFraction n.fraction
    ++ renderExponent n.exponent

/-- How `encoding/json` writes one character of a string with HTML escaping on:
the quote and the backslash get a backslash, newline, carriage return and tab
their short escape, other control characters and `<`, `>`, `&` a `\u00XX`
escape, U+2028 and U+2029 a `\u202X` escape, and everything else is copied. -/
def escapeChar (c : Char) : List Char :=
  if c = quote then [backslash, quote]
  else if c = backslash then [backslash, backslash]
  else if c = '\n' then [backslash, 'n']
  else if c = '\r' then [backslash, 'r']
  else if c = '\t' then [backslash, 't']
  else if c.toNat < 0x20 ∨ c = '<' ∨ c = '>' ∨ c = '&' then
    [backslash, 'u', '0', '0', hexChar (c.toNat / 16), hexChar (c.toNat % 16)]
  else if c.toNat = 0x2028 then [backslash, 'u', '2', '0', '2', '8']
  else if c.toNat = 0x2029 then [backslash, 'u', '2', '0', '2', '9']
  else [c]

def escapeChars : List Char → List Char
  | [] => []
  | c :: cs => escapeChar c ++ escapeChars cs

def renderString (s : String) : List Char := quote :: (escapeChars s.data ++ [quote])

mutual
/-- The compact text of a JSON document. -/
def JSON.render : JSON → List Char
  | .null => ['n', 'u', 'l', 'l']
  | .bool true => ['t', 'r', 'u', 'e']
  | .bool false => ['f', 'a', 'l', 's', 'e']
  | .number n => renderNumber n
  | .string s => renderString s
  | .array elems => '[' :: JSON.renderElems elems
  | .object members => '{' :: JSON.renderMembers members
/-- Array elements separated by commas, and the closing bracket. -/
def JSON.renderElems : List JSON → List Char
  | [] => [']']
  | [v] => JSON.render v ++ [']']
  | v :: w :: rest => JSON.render v ++ ',' :: JSON.renderElems (w :: rest)
/-- Object members separated by commas, and the closing brace. -/
def JSON.renderMembers : List (String × JSON) → List Char
  | [] => ['}']
  | [(k, v)] => renderString k ++ ':' :: (JSON.render v ++ ['}'])
  | (k, v) :: m :: rest => renderString k ++ ':' :: (JSON.render v ++ ',' :: JSON.renderMembers (m :: rest))
end

/-- The bytes of a JSON document: its compact text in UTF-8. -/
def JSON.encode (j : JSON) : Bytes := utf8Encode j.render

/-! ## Reading JSON (RFC 8259), keeping every member of every object -/

def isWs (c : Char) : Bool := c = ' ' || c = '\t' || c = '\n' || c = '\r'

def skipWs : List Char → List Char
  | [] => []
  | c :: cs => if isWs c then skipWs cs else c :: cs

/-- The value of a decimal digit character. -/
def digitOf (c : Char) : Option (Fin 10) :=
  if h : 48 ≤ c.toNat ∧ c.toNat ≤ 57 then some ⟨c.toNat - 48, by omega⟩ else none

/-- The longest run of leading digits, and what follows it. -/
def takeDigits : List Char → List (Fin 10) × List Char
  | [] => ([], [])
  | c :: cs =>
    match digitOf c with
    | some d => (d :: (takeDigits cs).1, (takeDigits cs).2)
    | none => ([], c :: cs)

def natOfDigits (ds : List (Fin 10)) : Nat := ds.foldl (fun a d => a * 10 + d.val) 0

/-- The integer part: `0`, or digits without a leading zero. -/
def parseInt (cs : List Char) : Option (Nat × List Char) :=
  match takeDigits cs with
  | ([], _) => none
  | (d :: ds, rest) => if d.val = 0 ∧ ds ≠ [] then none else some (natOfDigits (d :: ds), rest)

def parseFraction : List Char → Option (List (Fin 10) × List Char)
  | [] => some ([], [])
  | c :: cs =>
    if c = '.' then
      match takeDigits cs with
      | ([], _) => none
      | (d :: ds, rest) => some (d :: ds, rest)
    else some ([], c :: cs)

/-- The sign of an exponent, when written, and what follows it. -/
def parseSign : List Char → Bool × List Char
  | [] => (false, [])
  | c :: cs => if c = '-' then (true, cs) else if c = '+' then (false, cs) else (false, c :: cs)

def parseExponent : List Char → Option (Option Int × List Char)
  | [] => some (none, [])
  | c :: cs =>
    if c = 'e' ∨ c = 'E' then
      match takeDigits (parseSign cs).2 with
      | ([], _) => none
      | (d :: ds, rest) =>
        some (some (if (parseSign cs).1 then -(natOfDigits (d :: ds) : Int)
          else (natOfDigits (d :: ds) : Int)), rest)
    else some (none, c :: cs)

/-- The minus sign of a number, when written, and what follows it. -/
def parseMinus : List Char → Bool × List Char
  | [] => (false, [])
  | c :: cs => if c = '-' then (true, cs) else (false, c :: cs)

/-- A number literal at the head of the input, and what follows it. -/
def parseNumber (cs : List Char) : Option (Number × List Char) :=
  match parseInt (parseMinus cs).2 with
  | none => none
  | some (i, r1) =>
    match parseFraction r1 with
    | none => none
    | some (f, r2) =>
      match parseExponent r2 with
      | none => none
      | some (e, r3) => some (⟨(parseMinus cs).1, i, f, e⟩, r3)

/-- The value of a hexadecimal digit character, either case. -/
def hexVal (c : Char) : Option Nat :=
  if 48 ≤ c.toNat ∧ c.toNat ≤ 57 then some (c.toNat - 48)
  else if 97 ≤ c.toNat ∧ c.toNat ≤ 102 then some (c.toNat - 87)
  else if 65 ≤ c.toNat ∧ c.toNat ≤ 70 then some (c.toNat - 55)
  else none

def hex4 (a b c d : Char) : Option Nat :=
  match hexVal a, hexVal b, hexVal c, hexVal d with
  | some x, some y, some z, some w => some (((x * 16 + y) * 16 + z) * 16 + w)
  | _, _, _, _ => none

/-- The character a one-letter escape stands for. -/
def simpleEscape (e : Char) : Option Char :=
  if e = quote then some quote
  else if e = backslash then some backslash
  else if e = '/' then some '/'
  else if e = 'b' then some (Char.ofNat 8)
  else if e = 'f' then some (Char.ofNat 12)
  else if e = 'n' then some '\n'
  else if e = 'r' then some '\r'
  else if e = 't' then some '\t'
  else none

/-- U+FFFD, which stands in for an unpaired surrogate escape. -/
def replacementChar : Char := Char.ofNat 0xFFFD

/-- Puts a character in front of a parsed string body. -/
def consChar (c : Char) (r : Option (List Char × List Char)) : Option (List Char × List Char) :=
  r.map (fun p => (c :: p.1, p.2))

/-- Emits U+FFFD for a high surrogate escape that no low surrogate follows. -/
def flushPending (pending : Option Nat) (r : Option (List Char × List Char)) :
    Option (List Char × List Char) :=
  match pending with
  | none => r
  | some _ => consChar replacementChar r

/-- One item of the body of a string: the closing quote, a character (raw or
escaped), or the escape of a high or of a low surrogate. -/
inductive StringItem where
  | close
  | char (c : Char)
  | high (n : Nat)
  | low (n : Nat)

/-- The item at the head of a string body and what follows it. Raw control
characters and unknown escapes are refused. -/
def stringItem : List Char → Option (StringItem × List Char)
  | [] => none
  | c :: rest =>
    if c = quote then some (.close, rest)
    else if c = backslash then
      match rest with
      | [] => none
      | e :: rest1 =>
        if e = 'u' then
          match rest1 with
          | h1 :: h2 :: h3 :: h4 :: rest2 =>
            match hex4 h1 h2 h3 h4 with
            | none => none
            | some n =>
              if 0xD800 ≤ n ∧ n < 0xDC00 then some (.high n, rest2)
              else if 0xDC00 ≤ n ∧ n < 0xE000 then some (.low n, rest2)
              else some (.char (Char.ofNat n), rest2)
          | _ => none
        else
          match simpleEscape e with
          | none => none
          | some ch => some (.char ch, rest1)
    else if c.toNat < 0x20 then none
    else some (.char c, rest)

/-- The characters of a string, read after its opening quote up to the closing
one, and what follows. The first argument bounds the number of items read; the
second is the high surrogate escape just read, when there is one: a low
surrogate escape right after it completes the pair. -/
def parseStringBody : Nat → Option Nat → List Char → Option (List Char × List Char)
  | 0, _, _ => none
  | fuel + 1, pending, cs =>
    match stringItem cs with
    | none => none
    | some (.close, rest) => flushPending pending (some ([], rest))
    | some (.char c, rest) => flushPending pending (consChar c (parseStringBody fuel none rest))
    | some (.high n, rest) => flushPending pending (parseStringBody fuel (some n) rest)
    | some (.low n, rest) =>
      match pending with
      | some h =>
        consChar (Char.ofNat (0x10000 + (h - 0xD800) * 0x400 + (n - 0xDC00)))
          (parseStringBody fuel none rest)
      | none => consChar replacementChar (parseStringBody fuel none rest)

/-- A string, read after its opening quote. -/
def parseString (cs : List Char) : Option (String × List Char) :=
  (parseStringBody cs.length none cs).map (fun r => (String.mk r.1, r.2))

/-- The rest of a keyword, after its first letter. -/
def parseKeyword (word : List Char) (v : JSON) (cs : List Char) : Option (JSON × List Char) :=
  if cs.take word.length = word then some (v, cs.drop word.length) else none

mutual
/-- One JSON value at the head of the input, and what follows it. The first
argument bounds the number of nested calls. -/
def parseValue : Nat → List Char → Option (JSON × List Char)
  | 0, _ => none
  | fuel + 1, cs =>
    match skipWs cs with
    | [] => none
    | c :: rest =>
      if c = quote then (parseString rest).map (fun r => (JSON.string r.1, r.2))
      else if c = '[' then
        match skipWs rest with
        | [] => none
        | d :: rest1 =>
          if d = ']' then some (JSON.array [], rest1)
          else (parseElems fuel (d :: rest1)).map (fun r => (JSON.array r.1, r.2))
      else if c = '{' then
        match skipWs rest with
        | [] => none
        | d :: rest1 =>
          if d = '}' then some (JSON.object [], rest1)
          else (parseMembers fuel (d :: rest1)).map (fun r => (JSON.object r.1, r.2))
      else if c = 'n' then parseKeyword ['u', 'l', 'l'] JSON.null rest
      else if c = 't' then parseKeyword ['r', 'u', 'e'] (JSON.bool true) rest
      else if c = 'f' then parseKeyword ['a', 'l', 's', 'e'] (JSON.bool false) rest
      else (parseNumber (c :: rest)).map (fun r => (JSON.number r.1, r.2))
/-- The elements of a non-empty array up to its closing bracket. -/
def parseElems : Nat → List Char → Option (List JSON × List Char)
  | 0, _ => none
  | fuel + 1, cs =>
    match parseValue fuel cs with
    | none => none
    | some (v, rest) =>
      match skipWs rest with
      | [] => none
      | c :: rest1 =>
        if c = ',' then (parseElems fuel rest1).map (fun r => (v :: r.1, r.2))
        else if c = ']' then some ([v], rest1)
        else none
/-- The members of a non-empty object up to its closing brace. -/
def parseMembers : Nat → List Char → Option (List (String × JSON) × List Char)
  | 0, _ => none
  | fuel + 1, cs =>
    match skipWs cs with
    | [] => none
    | q :: rest =>
      if q = quote then
        match parseString rest with
        | none => none
        | some (k, rest1) =>
          match skipWs rest1 with
          | [] => none
          | c :: rest2 =>
            if c = ':' then
              match parseValue fuel rest2 with
              | none => none
              | some (v, rest3) =>
                match skipWs rest3 with
                | [] => none
                | d :: rest4 =>
                  if d = ',' then
                    (parseMembers fuel rest4).map (fun r => ((k, v) :: r.1, r.2))
                  else if d = '}' then some ([(k, v)], rest4)
                  else none
            else none
      else none
end

/-- A whole text as one JSON document: a value, then nothing but white space. -/
def JSON.parse (cs : List Char) : Option JSON :=
  match parseValue (cs.length + 1) cs with
  | none => none
  | some (v, rest) => if skipWs rest = [] then some v else none

/-- The JSON document held in a byte slice. -/
def JSON.decode (data : Bytes) : Option JSON :=
  match utf8Decode data with
  | none => none
  | some cs => JSON.parse cs

/-! ## Go values and errors -/

/-- Modelled from the spec: the kinds of decode error that the strictness rule
of section 8 names (section 7 lists them). The source declares none of them. -/
inductive DecodeErrorKind where
  | MissingField
  | DuplicateField
  | UnrecognizedField
deriving DecidableEq, Repr

/-- A Go `error` value, as far as these files build and inspect one. -/
inductive GoError where
  /-- The error of `errors.New(text)`. -/
  | errorString (text : String)
  /-- A `*json.UnsupportedValueError`: a value JSON cannot hold, such as NaN. -/
  | unsupportedValue
  /-- A `*json.UnsupportedTypeError`: a channel, a function, a complex number. -/
  | unsupportedType
  /-- A `*json.MarshalerError`: the error a `MarshalJSON` method returned. -/
  | marshalerError (err : GoError)
  /-- The error of `fmt.Errorf(format, err)` with one `%w` verb in `format`. -/
  | wrapError (format : String) (err : GoError)
  /-- An error of one of the spec's decode kinds; nothing in the source builds one. -/
  | decodeError (kind : DecodeErrorKind)
deriving DecidableEq, Repr

/-- What `errors.Unwrap` gives: the cause an error wraps. -/
def GoError.Unwrap : GoError → Option GoError
  | .marshalerError err => some err
  | .wrapError _ err => some err
  | _ => none

/-- The error is of the given decode kind, itself or through the causes it
wraps (as `errors.Is` looks for one). -/
def GoError.isKind : GoError → DecodeErrorKind → Bool
  | .decodeError k, kind => decide (k = kind)
  | .marshalerError err, kind => err.isKind kind
  | .wrapError _ err, kind => err.isKind kind
  | _, _ => false

/-- A Go value of dynamic type, as a `map[string]interface{}` holds them. A
map is the list of its entries; Go maps have no order and no repeated key, and
the list taken for one has its keys ascending. A nil slice or map is written
as `nil`: the encoder does not tell them from a nil interface. -/
inductive GoValue where
  | nil
  | bool (b : Bool)
  | number (n : Number)
  | string (s : String)
  /-- A `float64` that is NaN or infinite. -/
  | nonFinite
  /-- A value of a type JSON has no form for: a channel, a function, a complex number. -/
  | unsupported
  | slice (elems : List GoValue)
  | map (entries : List (String × GoValue))
deriving Repr

/-- A Go `map[string]interface{}`: `none` is the nil map. -/
abbrev GoMap := Option (List (String × GoValue))

/-- Go's `<` on strings: byte-wise, which on UTF-8 is the order of the code points. -/
def ltChars : List Char → List Char → Bool
  | _, [] => false
  | [], _ :: _ => true
  | a :: as, b :: bs =>
    if a.toNat < b.toNat then true else if b.toNat < a.toNat then false else ltChars as bs

def strLess (a b : String) : Bool := ltChars a.data b.data

/-- Puts an entry into a list ordered by key. -/
def insertByKey {α : Type} (x : String × α) : List (String × α) → List (String × α)
  | [] => [x]
  | y :: ys => if strLess x.1 y.1 then x :: y :: ys else y :: insertByKey x ys

/-- The entries ordered by key, as the encoder orders the keys of a map. -/
def sortByKey {α : Type} : List (String × α) → List (String × α)
  | [] => []
  | x :: xs => insertByKey x (sortByKey xs)

/-- The keys of the list are strictly ascending. -/
def keysAscending {α : Type} : List (String × α) → Bool
  | [] => true
  | [_] => true
  | x :: y :: rest => strLess x.1 y.1 && keysAscending (y :: rest)

/-- The first error among the members in their order, or all of them. -/
def collectMembers : List (String × Except GoError JSON) → Except GoError (List (String × JSON))
  | [] => .ok []
  | (_, .error err) :: _ => .error err
  | (k, .ok j) :: rest =>
    match collectMembers rest with
    | .error err => .error err
    | .ok js => .ok ((k, j) :: js)

mutual
/-- The JSON document `encoding/json` writes for a Go value, or the error it
stops with. The entries of a map are written in the order of their keys, and
the first value that cannot be written, in that order, gives the error. -/
def GoValue.toJSON : GoValue → Except GoError JSON
  | .nil => .ok .null
  | .bool b => .ok (.bool b)
  | .number n => .ok (.number n)
  | .string s => .ok (.string s)
  | .nonFinite => .error .unsupportedValue
  | .unsupported => .error .unsupportedType
  | .slice elems =>
    match GoValue.elemsToJSON elems with
    | .error err => .error err
    | .ok js => .ok (.array js)
  | .map entries =>
    match collectMembers (sortByKey (GoValue.entriesToJSON entries)) with
    | .error err => .error err
    | .ok ms => .ok (.object ms)
def GoValue.elemsToJSON : List GoValue → Except GoError (List JSON)
  | [] => .ok []
  | v :: vs =>
    match GoValue.toJSON v with
    | .error err => .error err
    | .ok j =>
      match GoValue.elemsToJSON vs with
      | .error err => .error err
      | .ok js => .ok (j :: js)
def GoValue.entriesToJSON : List (String × GoValue) → List (String × Except GoError JSON)
  | [] => []
  | (k, v) :: rest => (k, GoValue.toJSON v) :: GoValue.entriesToJSON rest
end

/-- The document written for a map field: `null` for the nil map. -/
def GoMap.toJSON : GoMap → Except GoError JSON
  | none => .ok .null
  | some entries => GoValue.toJSON (.map entries)

mutual
/-- The Go value of the same shape as a JSON document. -/
def JSON.toGo : JSON → GoValue
  | .null => .nil
  | .bool b => .bool b
  | .number n => .number n
  | .string s => .string s
  | .array elems => .slice (JSON.elemsToGo elems)
  | .object members => .map (JSON.membersToGo members)
def JSON.elemsToGo : List JSON → List GoValue
  | [] => []
  | v :: vs => JSON.toGo v :: JSON.elemsToGo vs
def JSON.membersToGo : List (String × JSON) → List (String × GoValue)
  | [] => []
  | (k, v) :: rest => (k, JSON.toGo v) :: JSON.membersToGo rest
end

/-- The Go map a JSON document stands for: the nil map for `null`, the entries
for an object, nothing for any other document. -/
def JSON.toGoMap : JSON → Option GoMap
  | .null => some none
  | .object members => some (some (JSON.membersToGo members))
  | _ => none

mutual
/-- A value JSON can hold: no unsupported value inside, and every map with its
keys ascending (the list stands for a Go map). -/
def GoValue.representable : GoValue → Bool
  | .nil => true
  | .bool _ => true
  | .number _ => true
  | .string _ => true
  | .nonFinite => false
  | .unsupported => false
  | .slice elems => GoValue.elemsRepresentable elems
  | .map entries => keysAscending entries && GoValue.entriesRepresentable entries
def GoValue.elemsRepresentable : List GoValue → Bool
  | [] => true
  | v :: vs => GoValue.representable v && GoValue.elemsRepresentable vs
def GoValue.entriesRepresentable : List (String × GoValue) → Bool
  | [] => true
  | (_, v) :: rest => GoValue.representable v && GoValue.entriesRepresentable rest
end

def GoMap.representable : GoMap → Bool
  | none => true
  | some entries => GoValue.representable (.map entries)

/-- The first member of an object with the given key. -/
def JSON.member (key : String) : JSON → Option JSON
  | .object members => (members.find? (fun m => m.1 = key)).map (fun m => m.2)
  | _ => none

/-- The document reached by following member names from the top. -/
def JSON.path : List String → JSON → Option JSON
  | [], j => some j
  | key :: keys, j =>
    match j.member key with
    | none => none
    | some v => JSON.path keys v

/-- The keys of an object in document order, repeated ones included. -/
def JSON.keys : JSON → Option (List String)
  | .object members => some (members.map (fun m => m.1))
  | _ => none

/-! ## `go-containerregistry/pkg/name` -/

/-- A `name.Repository`, by the string its `Name()` gives (registry and path). -/
structure Repository where
  name : String
deriving DecidableEq, Repr

def Repository.Name (r : Repository) : String := r.name

/-- A `name.Digest`: a repository and a digest, written `repository@digest`. -/
structure Digest where
  Repository : Repository
  digest : String
deriving DecidableEq, Repr

def Digest.DigestStr (d : Digest) : String := d.digest

/-- The full name of a digest reference: `d.Repository.Name() + "@" + d.DigestStr()`. -/
def Digest.Name (d : Digest) : String := d.Repository.Name ++ "@" ++ d.DigestStr

/-- A `name.Reference`, the interface of tag and digest references, by the
string its `Name()` gives. The interface value is taken to be non-nil. -/
structure Reference where
  Name : String
deriving DecidableEq, Repr

/-- A digest reference passed where a `name.Reference` is expected. -/
def Digest.toReference (d : Digest) : Reference := ⟨d.Name⟩

/-! ## `pkg/signature/payload/payload.go` -/

/-- The value of `critical.type` in a SimpleContainerImage payload. -/
def CosignSignatureType : String := "cosign container image signature"

/-- The claimed identity of the image (`json:"docker-reference"`). -/
structure Identity where
  DockerReference : String
deriving DecidableEq, Repr

/-- The container image the signature applies to (`json:"docker-manifest-digest"`). -/
structure Image where
  DockerManifestDigest : String
deriving DecidableEq, Repr

/-- The critical section; its fields are declared in the order identity, image, type. -/
structure Critical where
  Identity : Identity
  Image : Image
  Type_ : String
deriving DecidableEq, Repr

/-- The structure of a basic container image signature payload. -/
structure SimpleContainerImage where
  Critical : Critical
  Optional : GoMap

/-- A container image signed using Cosign. -/
structure Cosign where
  ClaimedIdentity : Reference
  ImageDigest : String
  Annotations : GoMap

/-- Information about a container image in the containers/image signature format. -/
def Cosign.SimpleContainerImage (p : Cosign) : SimpleContainerImage :=
  { Critical :=
      { Identity := { DockerReference := p.ClaimedIdentity.Name }
        Image := { DockerManifestDigest := p.ImageDigest }
        Type_ := CosignSignatureType }
    Optional := p.Annotations }

/-- The payload document: the fields of a `SimpleContainerImage` in their
declared order under the names of their `json` tags, neither of them with
`omitempty`, with the given document for the optional map. -/
def SimpleContainerImage.document (s : SimpleContainerImage) (optional : JSON) : JSON :=
  .object
    [("critical", .object
        [("identity", .object [("docker-reference", .string s.Critical.Identity.DockerReference)]),
         ("image", .object [("docker-manifest-digest", .string s.Critical.Image.DockerManifestDigest)]),
         ("type", .string s.Critical.Type_)]),
     ("optional", optional)]

/-- The document `encoding/json` writes for a `SimpleContainerImage`. Only the
optional map can stop the encoding. -/
def SimpleContainerImage.toJSON (s : SimpleContainerImage) : Except GoError JSON :=
  match GoMap.toJSON s.Optional with
  | .error err => .error err
  | .ok optional => .ok (s.document optional)

/-- `json.Marshal` of a `SimpleContainerImage`. -/
def jsonMarshalSimpleContainerImage (s : SimpleContainerImage) : Except GoError Bytes :=
  match s.toJSON with
  | .error err => .error err
  | .ok j => .ok j.encode

/-- Marshals the container signature into a `[]byte` of JSON data. -/
def Cosign.MarshalJSON (p : Cosign) : Except GoError Bytes :=
  jsonMarshalSimpleContainerImage p.SimpleContainerImage

/-- Unmarshals `[]byte` of JSON data into a container signature object: the
source leaves it unimplemented, it returns the same error whatever the data. -/
def Cosign.UnmarshalJSON (_p : Cosign) (_data : Bytes) : Except GoError Cosign :=
  .error (.errorString
    "Cosign.UnmarshalJSON is unimplemented; use sigstore/cosign.SimpleClainVerifier instead")

/-- `json.Marshal` of a `Cosign`, which is a `json.Marshaler`: the encoder calls
its `MarshalJSON`, wraps an error of it in a `*json.MarshalerError`, and
compacts the bytes it returns, which leaves bytes written by `json.Marshal`
as they are. -/
def jsonMarshalCosign (p : Cosign) : Except GoError Bytes :=
  match p.MarshalJSON with
  | .error err => .error (.marshalerError err)
  | .ok b => .ok b

/-! ## `pkg/signature/util.go` -/

/-- Modelled from the spec: the `SignerVerifier` interface, declared outside the
given sources. Section 6 gives its two capabilities, `sign(messageBytes) ->
signatureBytes | Error` and `verify(signatureBytes, messageBytes) -> ok |
Error`. A method takes the state of the signer (its key, its randomness) and
gives the next one; a returned slice or error is `none` when nil. -/
structure SignerVerifier (σ : Type) where
  SignMessage : Bytes → σ → (Option Bytes × Option GoError) × σ
  VerifySignature : Bytes → Bytes → σ → Option GoError × σ

/-- The three results of `SignImage`; `none` is Go's nil. -/
structure SignImageResult where
  payload : Option Bytes
  signature : Option Bytes
  err : Option GoError
deriving DecidableEq, Repr

/-- Signs a container manifest with `manifestDigest` using the specified signer
object, claiming it to be `claimedIdentity`. -/
def SignImage {σ : Type} (signer : SignerVerifier σ) (claimedIdentity : Reference)
    (manifestDigest : String) (optionalAnnotations : GoMap) (st : σ) : SignImageResult × σ :=
  let imgPayload : Cosign :=
    { ClaimedIdentity := claimedIdentity
      ImageDigest := manifestDigest
      Annotations := optionalAnnotations }
  match jsonMarshalCosign imgPayload with
  | .error err =>
    (⟨none, none, some (.wrapError "failed to marshal payload to JSON: %w" err)⟩, st)
  | .ok payload =>
    match signer.SignMessage payload st with
    | ((_, some err), st1) => (⟨none, none, some (.wrapError "failed to sign payload: %w" err)⟩, st1)
    | ((signature, none), st1) => (⟨some payload, signature, none⟩, st1)

/-- A call of a method of the signer. -/
inductive SignerCall where
  | SignMessage (message : Bytes)
  | VerifySignature (signature message : Bytes)
deriving DecidableEq, Repr

/-- The same signer, keeping the list of the calls made to it. -/
def SignerVerifier.recording {σ : Type} (s : SignerVerifier σ) : SignerVerifier (σ × List SignerCall) :=
  { SignMessage := fun message st =>
      ((s.SignMessage message st.1).1, ((s.SignMessage message st.1).2, st.2 ++ [.SignMessage message]))
    VerifySignature := fun signature message st =>
      ((s.VerifySignature signature message st.1).1,
        ((s.VerifySignature signature message st.1).2, st.2 ++ [.VerifySignature signature message])) }

/-! ## The inputs of the strictness rule -/

/-- The names of the members of the critical section of a payload, in document
order, when the bytes are a JSON document with a `critical` object. -/
def criticalKeys (data : Bytes) : Option (List String) :=
  match JSON.decode data with
  | none => none
  | some doc =>
    match doc.member "critical" with
    | none => none
    | some critical => critical.keys

/-- The critical section names `type`, `identity` or `image` more than once. -/
def hasDuplicateCriticalField (data : Bytes) : Bool :=
  match criticalKeys data with
  | none => false
  | some ks => ["type", "identity", "image"].any (fun k => decide (2 ≤ ks.count k))

/-- The critical section has a member beyond `type`, `identity` and `image`. -/
def hasUnrecognizedCriticalField (data : Bytes) : Bool :=
  match criticalKeys data with
  | none => false
  | some ks => ks.any (fun k => !(["type", "identity", "image"].contains k))

/-- The critical section lacks `identity` or `image`. -/
def missesCriticalField (data : Bytes) : Bool :=
  match criticalKeys data with
  | none => false
  | some ks => !(ks.contains "identity") || !(ks.contains "image")

/-- The error `Cosign.UnmarshalJSON` returns. -/
def unimplementedError : GoError :=
  .errorString "Cosign.UnmarshalJSON is unimplemented; use sigstore/cosign.SimpleClainVerifier instead"

/-! ## Example inputs -/

/-- The digest of the tests, `validDigest`. -/
def validDigest : String := "sha256:d34db33fd34db33fd34db33fd34db33fd34db33fd34db33fd34db33fd34db33f"

/-- The digest reference of the first test case, `example.com/ecdsa@` and the digest. -/
def exampleDigest : Digest := ⟨⟨"example.com/ecdsa"⟩, validDigest⟩

/-- A `name.Reference` whose `Name()` is empty. The interface has exported
methods only, so a type of any package can implement it so. -/
def emptyNameReference : Reference := ⟨""⟩

/-- The claims of the first test case. -/
def exampleClaims : GoMap := some [("creator", .string "ECDSA"), ("optional", .string "extras")]

/-- A signer whose signature is the length of the message and a counter, which
it steps at every signature. -/
def exampleSigner : SignerVerifier Nat :=
  { SignMessage := fun message st => ((some [message.length, st], none), st + 1)
    VerifySignature := fun signature message st =>
      (if signature.head? = some message.length then none else some (.errorString "invalid signature"),
        st) }

/-- The claims of the second test case; the number is `6.022e23`. -/
def exampleNumberClaims : GoMap :=
  some [("Floaty McFloatface", .number ⟨false, 6, [0, 2, 2], some 23⟩), ("creator", .string "RSA"),
    ("nested", .map [("list", .slice [.nil, .bool true, .string "a<b"]), ("n", .number ⟨true, 0, [], none⟩)])]

/-- A payload with the claims of the first test case. -/
def exampleCosign : Cosign :=
  { ClaimedIdentity := exampleDigest.toReference
    ImageDigest := validDigest
    Annotations := exampleClaims }

/-- The bytes written for the digest reference of the first test case, its
digest and a nil annotations map. -/
def nilAnnotationsPayload : Bytes :=
  utf8Encode ("\x7b\"critical\":\x7b\"identity\":\x7b\"docker-reference\":" ++
    "\"example.com/ecdsa@sha256:d34db33fd34db33fd34db33fd34db33fd34db33fd34db33fd34db33fd34db33f\"\x7d," ++
    "\"image\":\x7b\"docker-manifest-digest\":" ++
    "\"sha256:d34db33fd34db33fd34db33fd34db33fd34db33fd34db33fd34db33fd34db33f\"\x7d," ++
    "\"type\":\"cosign container image signature\"\x7d,\"optional\":null\x7d").data

/-- A payload whose critical section names `type` twice. -/
def duplicateTypeInput : Bytes :=
  utf8Encode ("\x7b\"critical\":\x7b\"type\":\"cosign container image signature\"," ++
    "\"type\":\"other\",\"identity\":\x7b\"docker-reference\":\"example.com/ecdsa\"\x7d," ++
    "\"image\":\x7b\"docker-manifest-digest\":\"sha256:d34d\"\x7d\x7d,\"optional\":null\x7d").data

/-- A payload whose critical section has a fourth member. -/
def extraFieldInput : Bytes :=
  utf8Encode ("\x7b\"critical\":\x7b\"type\":\"cosign container image signature\"," ++
    "\"identity\":\x7b\"docker-reference\":\"example.com/ecdsa\"\x7d," ++
    "\"image\":\x7b\"docker-manifest-digest\":\"sha256:d34d\"\x7d,\"extra\":1\x7d,\"optional\":null\x7d").data

/-- A payload whose critical section has no `identity`. -/
def missingIdentityInput : Bytes :=
  utf8Encode ("\x7b\"critical\":\x7b\"type\":\"cosign container image signature\"," ++
    "\"image\":\x7b\"docker-manifest-digest\":\"sha256:d34d\"\x7d\x7d,\"optional\":null\x7d").data

/-! ## Auxiliary notions for the proofs -/

/-- No digit stands at the head of the text. -/
def noLeadingDigit : List Char → Bool
  | [] => true
  | c :: _ => (digitOf c).isNone

/-- The text is over, or goes on with a comma or a closing bracket or brace:
what may follow a value inside a document. -/
def delimited : List Char → Bool
  | [] => true
  | c :: _ => c = ',' || c = ']' || c = '}'

mutual
/-- The number of values in a document, each element and member counting one more. -/
def JSON.size : JSON → Nat
  | .null => 1
  | .bool _ => 1
  | .number _ => 1
  | .string _ => 1
  | .array elems => 1 + JSON.sizeElems elems
  | .object members => 1 + JSON.sizeMembers members
def JSON.sizeElems : List JSON → Nat
  | [] => 0
  | v :: vs => 1 + JSON.size v + JSON.sizeElems vs
def JSON.sizeMembers : List (String × JSON) → Nat
  | [] => 0
  | (_, v) :: rest => 1 + JSON.size v + JSON.sizeMembers rest
end

/-- The round trip of one value, for every text that may follow it. -/
def RoundTrips (v : JSON) : Prop :=
  ∀ fuel rest, v.size ≤ fuel → delimited rest = true →
    parseValue fuel (v.render ++ rest) = some (v, rest)

/-! ## The UTF-8 round trip -/

theorem char_toNat_valid (c : Char) : c.toNat < 0xD800 ∨ (0xDFFF < c.toNat ∧ c.toNat < 0x110000) := by
  have h := c.valid
  simp only [UInt32.isValidChar, Nat.isValidChar] at h
  exact h

theorem decodeRune_encode (c : Char) (t : Bytes) :
    decodeRune (utf8EncodeRune c.toNat ++ t) = some (c, t) := by
  have hv := char_toNat_valid c
  have hc : Char.ofNat c.toNat = c := Char.ofNat_toNat c
  generalize c.toNat = n at hv hc
  unfold utf8EncodeRune
  split_ifs with h1 h2 h3
  · simp [decodeRune, h1, hc]
  · have e : (0xC0 + n / 0x40 - 0xC0) * 0x40 + (0x80 + n % 0x40 - 0x80) = n := by omega
    have a1 : ¬ (0xC0 + n / 0x40 < 0x80) := by omega
    have a2 : ¬ (0xC0 + n / 0x40 < 0xC0) := by omega
    have a3 : (0xC0 + n / 0x40 < 0xE0) := by omega
    simp only [List.cons_append, List.nil_append, decodeRune, a1, a2, a3, if_true, if_false, e, isCont]
    have b1 : 0x80 ≤ 0x80 + n % 0x40 := by omega
    have b2 : 0x80 + n % 0x40 < 0xC0 := by omega
    have b3 : 0x80 ≤ n := by omega
    simp [b1, b2, b3, hc]
  · have e : (0xE0 + n / 0x1000 - 0xE0) * 0x1000 + (0x80 + n / 0x40 % 0x40 - 0x80) * 0x40 + (0x80 + n % 0x40 - 0x80) = n := by omega
    have a1 : ¬ (0xE0 + n / 0x1000 < 0x80) := by omega
    have a2 : ¬ (0xE0 + n / 0x1000 < 0xC0) := by omega
    have a3 : ¬ (0xE0 + n / 0x1000 < 0xE0) := by omega
    have a4 : (0xE0 + n / 0x1000 < 0xF0) := by omega
    simp only [List.cons_append, List.nil_append, decodeRune, a1, a2, a3, a4, if_true, if_false, e, isCont, isScalar]
    have b1 : 0x80 ≤ 0x80 + n / 0x40 % 0x40 := by omega
    have b2 : 0x80 + n / 0x40 % 0x40 < 0xC0 := by omega
    have b3 : 0x80 ≤ 0x80 + n % 0x40 := by omega
    have b4 : 0x80 + n % 0x40 < 0xC0 := by omega
    have b5 : 0x800 ≤ n := by omega
    have b6 : n < 0xD800 ∨ (0xDFFF < n ∧ n < 0x110000) := hv
    simp [b1, b2, b3, b4, b5, b6, hc]
  · have e : (0xF0 + n / 0x40000 - 0xF0) * 0x40000 + (0x80 + n / 0x1000 % 0x40 - 0x80) * 0x1000 + (0x80 + n / 0x40 % 0x40 - 0x80) * 0x40 + (0x80 + n % 0x40 - 0x80) = n := by omega
    have a1 : ¬ (0xF0 + n / 0x40000 < 0x80) := by omega
    have a2 : ¬ (0xF0 + n / 0x40000 < 0xC0) := by omega
    have a3 : ¬ (0xF0 + n / 0x40000 < 0xE0) := by omega
    have a4 : ¬ (0xF0 + n / 0x40000 < 0xF0) := by omega
    have a5 : (0xF0 + n / 0x40000 < 0xF8) := by omega
    simp only [List.cons_append, List.nil_append, decodeRune, a1, a2, a3, a4, a5, if_true, if_false, e, isCont, isScalar]
    have b1 : 0x80 ≤ 0x80 + n / 0x40 % 0x40 := by omega
    have b2 : 0x80 + n / 0x40 % 0x40 < 0xC0 := by omega
    have b3 : 0x80 ≤ 0x80 + n % 0x40 := by omega
    have b4 : 0x80 + n % 0x40 < 0xC0 := by omega
    have b7 : 0x80 ≤ 0x80 + n / 0x1000 % 0x40 := by omega
    have b8 : 0x80 + n / 0x1000 % 0x40 < 0xC0 := by omega
    have b5 : 0x10000 ≤ n := by omega
    have b6 : n < 0xD800 ∨ (0xDFFF < n ∧ n < 0x110000) := hv
    simp [b1, b2, b3, b4, b5, b6, b7, b8, hc]

theorem utf8EncodeRune_ne_nil (n : Nat) : utf8EncodeRune n ≠ [] := by
  unfold utf8EncodeRune; split_ifs <;> simp

theorem length_le_utf8Encode (cs : List Char) : cs.length ≤ (utf8Encode cs).length := by
  induction cs with
  | nil => simp [utf8Encode]
  | cons c cs ih =>
    have h := utf8EncodeRune_ne_nil c.toNat
    have : 1 ≤ (utf8EncodeRune c.toNat).length := by
      cases hh : utf8EncodeRune c.toNat with
      | nil => exact absurd hh h
      | cons _ _ => simp
    simp only [utf8Encode, List.length_append, List.length_cons]
    omega

theorem utf8DecodeAux_encode (cs : List Char) :
    ∀ fuel, cs.length ≤ fuel → utf8DecodeAux fuel (utf8Encode cs) = some cs := by
  induction cs with
  | nil => intro fuel _; simp [utf8Encode, utf8DecodeAux]
  | cons c cs ih =>
    intro fuel hf
    cases fuel with
    | zero => simp at hf
    | succ fuel =>
      have hne := utf8EncodeRune_ne_nil c.toNat
      have hd := decodeRune_encode c (utf8Encode cs)
      simp only [utf8Encode]
      cases hh : utf8EncodeRune c.toNat ++ utf8Encode cs with
      | nil => simp at hh; exact absurd hh.1 hne
      | cons b t =>
        rw [hh] at hd
        simp only [utf8DecodeAux, hd]
        rw [ih fuel (by simpa using hf)]
        rfl

theorem utf8Decode_utf8Encode (cs : List Char) : utf8Decode (utf8Encode cs) = some cs :=
  utf8DecodeAux_encode cs _ (length_le_utf8Encode cs)


/-! ## The number round trip -/

theorem digitOf_digitChar (d : Fin 10) : digitOf (digitChar d.val) = some d := by
  revert d; decide

theorem digitChar_ne (d : Fin 10) :
    digitChar d.val ≠ '-' ∧ digitChar d.val ≠ '.' ∧ digitChar d.val ≠ quote
      ∧ digitChar d.val ≠ '[' ∧ digitChar d.val ≠ '{' ∧ digitChar d.val ≠ 'n'
      ∧ digitChar d.val ≠ 't' ∧ digitChar d.val ≠ 'f' ∧ isWs (digitChar d.val) = false := by
  revert d; decide

theorem takeDigits_map (ds : List (Fin 10)) (rest : List Char) (h : noLeadingDigit rest = true) :
    takeDigits (ds.map (fun d => digitChar d.val) ++ rest) = (ds, rest) := by
  induction ds with
  | nil =>
    cases rest with
    | nil => rfl
    | cons c t =>
      simp only [noLeadingDigit, Option.isNone_iff_eq_none] at h
      simp [takeDigits, h]
  | cons d ds ih =>
    have ih2 : takeDigits ((List.map (fun d => digitChar d.val) ds).append rest) = (ds, rest) := ih
    simp only [List.map_cons, List.cons_append, takeDigits, digitOf_digitChar, ih2]

theorem renderNatAux_eq (n : Nat) :
    ∀ fuel acc, n < fuel → renderNatAux fuel n acc = renderNatAux (n + 1) n [] ++ acc := by
  induction n using Nat.strong_induction_on with
  | _ n ih =>
    intro fuel acc hf
    cases fuel with
    | zero => omega
    | succ f =>
      by_cases h : n < 10
      · simp [renderNatAux, h]
      · have hlt : n / 10 < n := by omega
        rw [renderNatAux, if_neg h, ih (n / 10) hlt f _ (by omega)]
        conv_rhs => rw [renderNatAux, if_neg h]
        have := ih (n / 10) hlt n [digitChar (n % 10)] hlt
        rw [this]
        simp

theorem renderNat_small (n : Nat) (h : n < 10) : renderNat n = [digitChar n] := by
  simp [renderNat, renderNatAux, h]

theorem renderNat_large (n : Nat) (h : ¬ n < 10) :
    renderNat n = renderNat (n / 10) ++ [digitChar (n % 10)] := by
  have hlt : n / 10 < n := by omega
  unfold renderNat
  rw [renderNatAux, if_neg h]
  exact renderNatAux_eq (n / 10) n _ hlt

theorem natOfDigits_snoc (ds : List (Fin 10)) (e : Fin 10) :
    natOfDigits (ds ++ [e]) = natOfDigits ds * 10 + e.val := by
  simp [natOfDigits, List.foldl_append]

/-- The decimal form of `n` is a list of digits whose value is `n`, with no
leading zero unless it is the single digit `0`. -/
theorem renderNat_digits (n : Nat) :
    ∃ (d : Fin 10) (ds : List (Fin 10)),
      renderNat n = (d :: ds).map (fun x => digitChar x.val)
        ∧ natOfDigits (d :: ds) = n ∧ (d.val = 0 → ds = []) := by
  induction n using Nat.strong_induction_on with
  | _ n ih =>
    by_cases h : n < 10
    · refine ⟨⟨n, h⟩, [], ?_, ?_, ?_⟩
      · simp [renderNat_small n h]
      · simp [natOfDigits]
      · intro _; rfl
    · obtain ⟨d, ds, h1, h2, h3⟩ := ih (n / 10) (by omega)
      refine ⟨d, ds ++ [⟨n % 10, by omega⟩], ?_, ?_, ?_⟩
      · rw [renderNat_large n h, h1]; simp
      · have := natOfDigits_snoc (d :: ds) ⟨n % 10, by omega⟩
        rw [List.cons_append] at this
        rw [this, h2]
        simp only
        omega
      · intro hd
        have hds := h3 hd
        subst hds
        have : natOfDigits [d] = 0 := by simp [natOfDigits, hd]
        omega

theorem parseInt_renderNat (n : Nat) (rest : List Char) (h : noLeadingDigit rest = true) :
    parseInt (renderNat n ++ rest) = some (n, rest) := by
  obtain ⟨d, ds, h1, h2, h3⟩ := renderNat_digits n
  rw [h1, parseInt, takeDigits_map (d :: ds) rest h]
  simp only
  by_cases hd : d.val = 0
  · simp [h3 hd, hd, h2.symm]
  · simp [hd, h2]

theorem delimited_cases {rest : List Char} (h : delimited rest = true) :
    rest = [] ∨ ∃ t, rest = ',' :: t ∨ rest = ']' :: t ∨ rest = '}' :: t := by
  cases rest with
  | nil => exact Or.inl rfl
  | cons c t =>
    simp only [delimited, Bool.or_eq_true, decide_eq_true_eq] at h
    rcases h with (h | h) | h <;> subst h <;> exact Or.inr ⟨t, by simp⟩

theorem noLeadingDigit_of_delimited {rest : List Char} (h : delimited rest = true) :
    noLeadingDigit rest = true := by
  rcases delimited_cases h with h | ⟨t, h | h | h⟩ <;> subst h <;>
    rfl

theorem noLeadingDigit_exponent (e : Option Int) {rest : List Char} (h : delimited rest = true) :
    noLeadingDigit (renderExponent e ++ rest) = true := by
  cases e with
  | none => simpa [renderExponent] using noLeadingDigit_of_delimited h
  | some e => simp only [renderExponent, List.cons_append, noLeadingDigit]; decide

theorem parseSign_minus (cs : List Char) : parseSign ('-' :: cs) = (true, cs) := by
  simp [parseSign]

theorem parseSign_plus (cs : List Char) : parseSign ('+' :: cs) = (false, cs) := by
  simp [parseSign]

theorem parseExponent_render (e : Option Int) (rest : List Char) (h : delimited rest = true) :
    parseExponent (renderExponent e ++ rest) = some (e, rest) := by
  cases e with
  | none =>
    rcases delimited_cases h with h | ⟨t, h | h | h⟩ <;> subst h <;>
      simp [renderExponent, parseExponent]
  | some e =>
    obtain ⟨d, ds, h1, h2, _⟩ := renderNat_digits e.natAbs
    have hd := takeDigits_map (d :: ds) rest (noLeadingDigit_of_delimited h)
    by_cases he : e < 0
    · simp only [renderExponent, he, if_true, List.cons_append, parseExponent, true_or,
        parseSign_minus, h1, hd, h2]
      congr 3
      omega
    · simp only [renderExponent, he, if_false, List.cons_append, parseExponent, true_or,
        parseSign_plus, h1, hd, h2, if_true, Bool.false_eq_true]
      congr 3
      omega

theorem parseFraction_render (f : List (Fin 10)) (e : Option Int) (rest : List Char)
    (h : delimited rest = true) :
    parseFraction (renderFraction f ++ (renderExponent e ++ rest))
      = some (f, renderExponent e ++ rest) := by
  cases f with
  | nil =>
    cases e with
    | none =>
      rcases delimited_cases h with h | ⟨t, h | h | h⟩ <;> subst h <;>
        simp [renderFraction, renderExponent, parseFraction]
    | some e => simp [renderFraction, renderExponent, parseFraction]
  | cons d ds =>
    have hd := takeDigits_map (d :: ds) _ (noLeadingDigit_exponent e h)
    simp only [renderFraction, List.cons_append, parseFraction, if_true, hd]

theorem noLeadingDigit_fraction (f : List (Fin 10)) (e : Option Int) {rest : List Char}
    (h : delimited rest = true) :
    noLeadingDigit (renderFraction f ++ (renderExponent e ++ rest)) = true := by
  cases f with
  | nil => simpa [renderFraction] using noLeadingDigit_exponent e h
  | cons d ds => simp only [renderFraction, List.cons_append, noLeadingDigit]; decide

theorem parseNumber_render (n : Number) (rest : List Char) (h : delimited rest = true) :
    parseNumber (renderNumber n ++ rest) = some (n, rest) := by
  obtain ⟨neg, i, f, e⟩ := n
  have hi := parseInt_renderNat i _ (noLeadingDigit_fraction f e h)
  have hf := parseFraction_render f e rest h
  have hm : parseMinus ((if neg = true then ['-'] else []) ++ renderNat i
      ++ renderFraction f ++ renderExponent e ++ rest)
      = (neg, renderNat i ++ (renderFraction f ++ (renderExponent e ++ rest))) := by
    cases neg with
    | true => simp [parseMinus]
    | false =>
      obtain ⟨d, ds, h1, _, _⟩ := renderNat_digits i
      have := (digitChar_ne d).1
      simp [parseMinus, h1, this]
  simp only [renderNumber, parseNumber, hm, hi, hf, parseExponent_render e rest h]

/-! ## The string round trip -/

theorem hex4_low (n : Fin 128) :
    hex4 '0' '0' (hexChar (n.val / 16)) (hexChar (n.val % 16)) = some n.val := by
  revert n; decide

theorem char_eq_of_toNat {c d : Char} (h : c.toNat = d.toNat) : c = d := by
  rw [← Char.ofNat_toNat c, ← Char.ofNat_toNat d, h]

theorem stringItem_escapeChar (c : Char) (t : List Char) :
    stringItem (escapeChar c ++ t) = some (StringItem.char c, t) := by
  unfold escapeChar
  split_ifs with h1 h2 h3 h4 h5 h6 h7 h8
  · subst h1; rfl
  · subst h2; rfl
  · subst h3; rfl
  · subst h4; rfl
  · subst h5; rfl
  · have hlt : c.toNat < 128 := by
      rcases h6 with h | h | h | h
      · omega
      · subst h; decide
      · subst h; decide
      · subst h; decide
    have hx := hex4_low ⟨c.toNat, hlt⟩
    simp only at hx
    have a1 : ¬ (55296 ≤ c.toNat ∧ c.toNat < 56320) := by omega
    have a2 : ¬ (56320 ≤ c.toNat ∧ c.toNat < 57344) := by omega
    have q1 : backslash ≠ quote := by decide
    simp [stringItem, q1, hx, a1, a2]
  · have hc : c = Char.ofNat 0x2028 := char_eq_of_toNat (by rw [h7]; decide)
    subst hc
    rfl
  · have hc : c = Char.ofNat 0x2029 := char_eq_of_toNat (by rw [h8]; decide)
    subst hc
    rfl
  · have a : ¬ c.toNat < 32 := by
      intro h; exact h6 (Or.inl h)
    simp [stringItem, h1, h2, a]

theorem escapeChar_length (c : Char) : 1 ≤ (escapeChar c).length := by
  unfold escapeChar; split_ifs <;> simp

theorem escapeChars_length (cs : List Char) : cs.length ≤ (escapeChars cs).length := by
  induction cs with
  | nil => simp [escapeChars]
  | cons c cs ih =>
    have := escapeChar_length c
    simp only [escapeChars, List.length_append, List.length_cons]
    omega

theorem parseStringBody_escapeChars (cs : List Char) :
    ∀ fuel rest, cs.length < fuel →
      parseStringBody fuel none (escapeChars cs ++ quote :: rest) = some (cs, rest) := by
  induction cs with
  | nil =>
    intro fuel rest hf
    cases fuel with
    | zero => simp at hf
    | succ f =>
      have : stringItem (quote :: rest) = some (StringItem.close, rest) := by simp [stringItem]
      simp [escapeChars, parseStringBody, this, flushPending]
  | cons c cs ih =>
    intro fuel rest hf
    cases fuel with
    | zero => simp at hf
    | succ f =>
      have hi := stringItem_escapeChar c (escapeChars cs ++ quote :: rest)
      have hr := ih f rest (by simpa using hf)
      simp only [escapeChars, List.append_assoc, parseStringBody, hi, hr, flushPending, consChar,
        Option.map_some']

theorem parseString_render (s : String) (rest : List Char) :
    parseString (escapeChars s.data ++ quote :: rest) = some (s, rest) := by
  have hl := escapeChars_length s.data
  have := parseStringBody_escapeChars s.data (escapeChars s.data ++ quote :: rest).length rest
    (by simp only [List.length_append, List.length_cons]; omega)
  simp only [parseString, this, Option.map_some']

/-! ## The document round trip -/

theorem JSON.size_pos (v : JSON) : 1 ≤ v.size := by
  cases v <;> simp [JSON.size]

theorem skipWs_cons {c : Char} (t : List Char) (h : isWs c = false) : skipWs (c :: t) = c :: t := by
  simp [skipWs, h]

theorem renderNumber_head (n : Number) (rest : List Char) :
    ∃ c t, renderNumber n ++ rest = c :: t ∧ isWs c = false ∧ c ≠ quote ∧ c ≠ '[' ∧ c ≠ '{'
      ∧ c ≠ 'n' ∧ c ≠ 't' ∧ c ≠ 'f' := by
  obtain ⟨neg, i, f, e⟩ := n
  cases neg with
  | true =>
    refine ⟨'-', _, by simp [renderNumber]; rfl, ?_⟩
    decide
  | false =>
    obtain ⟨d, ds, h1, _, _⟩ := renderNat_digits i
    have hd := digitChar_ne d
    refine ⟨digitChar d.val, _, by simp [renderNumber, h1]; rfl, ?_⟩
    exact ⟨hd.2.2.2.2.2.2.2.2, hd.2.2.1, hd.2.2.2.1, hd.2.2.2.2.1, hd.2.2.2.2.2.1, hd.2.2.2.2.2.2.1,
      hd.2.2.2.2.2.2.2.1⟩

theorem roundTrips_null : RoundTrips .null := by
  intro fuel rest hf _
  cases fuel with
  | zero => simp [JSON.size] at hf
  | succ f => rfl

theorem roundTrips_bool (b : Bool) : RoundTrips (.bool b) := by
  intro fuel rest hf _
  cases fuel with
  | zero => simp [JSON.size] at hf
  | succ f => cases b <;> rfl

theorem roundTrips_string (s : String) : RoundTrips (.string s) := by
  intro fuel rest hf _
  cases fuel with
  | zero => simp [JSON.size] at hf
  | succ f =>
    have hq : isWs quote = false := by decide
    have hs := parseString_render s rest
    simp only [JSON.render, renderString, List.cons_append, List.append_assoc, List.singleton_append,
      parseValue, skipWs_cons _ hq, if_true, List.nil_append, hs, Option.map_some']

theorem roundTrips_number (n : Number) : RoundTrips (.number n) := by
  intro fuel rest hf hr
  cases fuel with
  | zero => simp [JSON.size] at hf
  | succ f =>
    obtain ⟨c, t, h, h1, h2, h3, h4, h5, h6, h7⟩ := renderNumber_head n rest
    have hn := parseNumber_render n rest hr
    rw [h] at hn
    simp only [JSON.render, h, parseValue, skipWs_cons _ h1, if_neg h2, if_neg h3, if_neg h4,
      if_neg h5, if_neg h6, if_neg h7, hn, Option.map_some']

theorem delimited_comma (t : List Char) : delimited (',' :: t) = true := rfl
theorem delimited_bracket (t : List Char) : delimited (']' :: t) = true := rfl
theorem delimited_brace (t : List Char) : delimited ('}' :: t) = true := rfl

/-- The elements of an array round trip when each of them does. -/
theorem parseElems_render (v : JSON) (vs : List JSON)
    (H : ∀ x ∈ v :: vs, RoundTrips x) :
    ∀ fuel rest, JSON.sizeElems (v :: vs) ≤ fuel →
      parseElems fuel (JSON.renderElems (v :: vs) ++ rest) = some (v :: vs, rest) := by
  induction vs generalizing v with
  | nil =>
    intro fuel rest hf
    cases fuel with
    | zero => simp [JSON.sizeElems] at hf
    | succ f =>
      have hv := H v (by simp) f (']' :: rest) (by simp [JSON.sizeElems] at hf; omega)
        (delimited_bracket rest)
      have hw : isWs ']' = false := by decide
      have hne : ¬ (']' = ',') := by decide
      simp only [JSON.renderElems, List.append_assoc, List.singleton_append, parseElems, hv,
        skipWs_cons _ hw, if_neg hne, if_true]
  | cons w ws ih =>
    intro fuel rest hf
    cases fuel with
    | zero => simp [JSON.sizeElems] at hf
    | succ f =>
      have hsz : JSON.sizeElems (v :: w :: ws) = 1 + v.size + JSON.sizeElems (w :: ws) := by
        simp [JSON.sizeElems]
      have hv := H v (by simp) f (',' :: (JSON.renderElems (w :: ws) ++ rest)) (by omega)
        (delimited_comma _)
      have hrec := ih w (fun x hx => H x (by simp at hx ⊢; right; exact hx)) f rest (by omega)
      have hw : isWs ',' = false := by decide
      simp only [JSON.renderElems, List.append_assoc, List.cons_append, parseElems, hv,
        skipWs_cons _ hw, if_true, hrec, Option.map_some']

/-- The members of an object round trip when the value of each of them does. -/
theorem parseMembers_render (m : String × JSON) (ms : List (String × JSON))
    (H : ∀ x ∈ m :: ms, RoundTrips x.2) :
    ∀ fuel rest, JSON.sizeMembers (m :: ms) ≤ fuel →
      parseMembers fuel (JSON.renderMembers (m :: ms) ++ rest) = some (m :: ms, rest) := by
  induction ms generalizing m with
  | nil =>
    intro fuel rest hf
    obtain ⟨k, v⟩ := m
    cases fuel with
    | zero => simp [JSON.sizeMembers] at hf
    | succ f =>
      have hv : parseValue f (v.render ++ '}' :: rest) = some (v, '}' :: rest) :=
        H (k, v) (by simp) f ('}' :: rest)
          (by simp only [JSON.sizeMembers] at hf; show v.size ≤ f; omega) (delimited_brace rest)
      have hq : isWs quote = false := by decide
      have hc : isWs ':' = false := by decide
      have hw : isWs '}' = false := by decide
      have hne : ¬ ('}' = ',') := by decide
      have hs := parseString_render k (':' :: (v.render ++ '}' :: rest))
      simp only [JSON.renderMembers, renderString, List.append_assoc, List.singleton_append,
        List.cons_append, List.nil_append, parseMembers, skipWs_cons _ hq, if_true, hs,
        skipWs_cons _ hc, hv, skipWs_cons _ hw, if_neg hne]
  | cons n ns ih =>
    intro fuel rest hf
    obtain ⟨k, v⟩ := m
    cases fuel with
    | zero => simp [JSON.sizeMembers] at hf
    | succ f =>
      have hsz : JSON.sizeMembers ((k, v) :: n :: ns) = 1 + v.size + JSON.sizeMembers (n :: ns) := by
        simp [JSON.sizeMembers]
      have hv : parseValue f (v.render ++ ',' :: (JSON.renderMembers (n :: ns) ++ rest))
          = some (v, ',' :: (JSON.renderMembers (n :: ns) ++ rest)) :=
        H (k, v) (by simp) f (',' :: (JSON.renderMembers (n :: ns) ++ rest))
          (by show v.size ≤ f; omega) (delimited_comma _)
      have hrec := ih n (fun x hx => H x (by simp at hx ⊢; right; exact hx)) f rest (by omega)
      have hq : isWs quote = false := by decide
      have hc : isWs ':' = false := by decide
      have hw : isWs ',' = false := by decide
      have hs := parseString_render k
        (':' :: (v.render ++ ',' :: (JSON.renderMembers (n :: ns) ++ rest)))
      simp only [JSON.renderMembers, renderString, List.append_assoc, List.singleton_append,
        List.cons_append, List.nil_append, parseMembers, skipWs_cons _ hq, if_true, hs,
        skipWs_cons _ hc, hv, skipWs_cons _ hw, hrec, Option.map_some']

theorem digitChar_ne_close (d : Fin 10) : digitChar d.val ≠ ']' ∧ digitChar d.val ≠ '}' := by
  revert d; decide

/-- The text of a value starts with a character that is neither white space
nor a closing bracket or brace. -/
theorem render_head (v : JSON) (rest : List Char) :
    ∃ c t, v.render ++ rest = c :: t ∧ isWs c = false ∧ c ≠ ']' ∧ c ≠ '}' := by
  cases v with
  | null => exact ⟨'n', _, rfl, by decide⟩
  | bool b => cases b <;> [exact ⟨'f', _, rfl, by decide⟩; exact ⟨'t', _, rfl, by decide⟩]
  | number n =>
    obtain ⟨neg, i, f, e⟩ := n
    cases neg with
    | true => exact ⟨'-', _, by simp [JSON.render, renderNumber]; rfl, by decide⟩
    | false =>
      obtain ⟨d, ds, h1, _, _⟩ := renderNat_digits i
      exact ⟨digitChar d.val, _, by simp [JSON.render, renderNumber, h1]; rfl,
        (digitChar_ne d).2.2.2.2.2.2.2.2, (digitChar_ne_close d).1, (digitChar_ne_close d).2⟩
  | string s => exact ⟨quote, _, by simp [JSON.render, renderString]; rfl, by decide⟩
  | array es => exact ⟨'[', _, by simp [JSON.render]; rfl, by decide⟩
  | object ms => exact ⟨'{', _, by simp [JSON.render]; rfl, by decide⟩

theorem renderElems_head (v : JSON) (vs : List JSON) (rest : List Char) :
    ∃ c t, JSON.renderElems (v :: vs) ++ rest = c :: t ∧ isWs c = false ∧ c ≠ ']' := by
  cases vs with
  | nil =>
    obtain ⟨c, t, h, h1, h2, _⟩ := render_head v (']' :: rest)
    exact ⟨c, t, by simpa [JSON.renderElems] using h, h1, h2⟩
  | cons w ws =>
    obtain ⟨c, t, h, h1, h2, _⟩ := render_head v (',' :: (JSON.renderElems (w :: ws) ++ rest))
    exact ⟨c, t, by simpa [JSON.renderElems] using h, h1, h2⟩

theorem renderMembers_head (m : String × JSON) (ms : List (String × JSON)) (rest : List Char) :
    ∃ t, JSON.renderMembers (m :: ms) ++ rest = quote :: t := by
  obtain ⟨k, v⟩ := m
  cases ms with
  | nil => exact ⟨_, by simp [JSON.renderMembers, renderString]; rfl⟩
  | cons n ns => exact ⟨_, by simp [JSON.renderMembers, renderString]; rfl⟩

theorem size_le_of_mem_elems {x : JSON} {es : List JSON} (h : x ∈ es) :
    x.size < JSON.sizeElems es := by
  induction es with
  | nil => simp at h
  | cons v vs ih =>
    simp only [JSON.sizeElems]
    rcases List.mem_cons.mp h with h | h
    · subst h; omega
    · have := ih h; omega

theorem size_le_of_mem_members {x : String × JSON} {ms : List (String × JSON)} (h : x ∈ ms) :
    x.2.size < JSON.sizeMembers ms := by
  induction ms with
  | nil => simp at h
  | cons m ms ih =>
    obtain ⟨k, v⟩ := m
    simp only [JSON.sizeMembers]
    rcases List.mem_cons.mp h with h | h
    · subst h; simp only; omega
    · have := ih h; omega

theorem roundTrips_array (es : List JSON) (H : ∀ x ∈ es, RoundTrips x) :
    RoundTrips (.array es) := by
  intro fuel rest hf _
  cases fuel with
  | zero => simp [JSON.size] at hf
  | succ f =>
    have hb : isWs '[' = false := by decide
    have hq : ¬ ('[' = quote) := by decide
    cases es with
    | nil =>
      have hc : isWs ']' = false := by decide
      simp only [JSON.render, JSON.renderElems, List.cons_append, List.nil_append, parseValue,
        skipWs_cons _ hb, if_neg hq, if_true, skipWs_cons _ hc]
    | cons v vs =>
      obtain ⟨c, t, h, h1, h2⟩ := renderElems_head v vs rest
      have hp := parseElems_render v vs H f rest (by simp only [JSON.size] at hf; omega)
      rw [h] at hp
      simp only [JSON.render, List.cons_append, h, parseValue, skipWs_cons _ hb, if_neg hq, if_true,
        skipWs_cons _ h1, if_neg h2, hp, Option.map_some']

theorem roundTrips_object (ms : List (String × JSON)) (H : ∀ x ∈ ms, RoundTrips x.2) :
    RoundTrips (.object ms) := by
  intro fuel rest hf _
  cases fuel with
  | zero => simp [JSON.size] at hf
  | succ f =>
    have hb : isWs '{' = false := by decide
    have hq : ¬ ('{' = quote) := by decide
    have hq2 : ¬ ('{' = '[') := by decide
    cases ms with
    | nil =>
      have hc : isWs '}' = false := by decide
      simp only [JSON.render, JSON.renderMembers, List.cons_append, List.nil_append, parseValue,
        skipWs_cons _ hb, if_neg hq, if_neg hq2, if_true, skipWs_cons _ hc]
    | cons m ms =>
      obtain ⟨t, h⟩ := renderMembers_head m ms rest
      have hp := parseMembers_render m ms H f rest (by simp only [JSON.size] at hf; omega)
      rw [h] at hp
      have h1 : isWs quote = false := by decide
      have h2 : ¬ (quote = '}') := by decide
      simp only [JSON.render, List.cons_append, h, parseValue, skipWs_cons _ hb, if_neg hq,
        if_neg hq2, if_true, skipWs_cons _ h1, if_neg h2, hp, Option.map_some']

theorem roundTrips_bounded : ∀ n (v : JSON), v.size ≤ n → RoundTrips v := by
  intro n
  induction n with
  | zero => intro v h; have := v.size_pos; omega
  | succ n ih =>
    intro v h
    cases v with
    | null => exact roundTrips_null
    | bool b => exact roundTrips_bool b
    | number x => exact roundTrips_number x
    | string s => exact roundTrips_string s
    | array es =>
      refine roundTrips_array es (fun x hx => ih x ?_)
      have := size_le_of_mem_elems hx
      simp only [JSON.size] at h
      omega
    | object ms =>
      refine roundTrips_object ms (fun x hx => ih x.2 ?_)
      have := size_le_of_mem_members hx
      simp only [JSON.size] at h
      omega

theorem roundTrips (v : JSON) : RoundTrips v := roundTrips_bounded v.size v (Nat.le_refl _)

theorem sizeElems_le_length (es : List JSON) (H : ∀ x ∈ es, x.size ≤ x.render.length) :
    JSON.sizeElems es ≤ (JSON.renderElems es).length := by
  induction es with
  | nil => simp [JSON.sizeElems]
  | cons v vs ih =>
    have hv := H v (by simp)
    have hrec := ih (fun x hx => H x (by simp [hx]))
    cases vs with
    | nil => simp only [JSON.sizeElems, JSON.renderElems, List.length_append, List.length_cons,
        List.length_nil]; omega
    | cons w ws =>
      simp only [JSON.renderElems, List.length_append, List.length_cons] at hrec ⊢
      simp only [JSON.sizeElems] at hrec ⊢
      omega

theorem sizeMembers_le_length (ms : List (String × JSON))
    (H : ∀ x ∈ ms, x.2.size ≤ x.2.render.length) :
    JSON.sizeMembers ms ≤ (JSON.renderMembers ms).length := by
  induction ms with
  | nil => simp [JSON.sizeMembers]
  | cons m ms ih =>
    obtain ⟨k, v⟩ := m
    have hv : v.size ≤ v.render.length := H (k, v) (by simp)
    have hrec := ih (fun x hx => H x (by simp [hx]))
    cases ms with
    | nil => simp only [JSON.sizeMembers, JSON.renderMembers, List.length_append, List.length_cons,
        List.length_nil]; omega
    | cons n ns =>
      simp only [JSON.renderMembers, List.length_append, List.length_cons] at hrec ⊢
      simp only [JSON.sizeMembers] at hrec ⊢
      omega

theorem size_le_length_bounded : ∀ n (v : JSON), v.size ≤ n → v.size ≤ v.render.length := by
  intro n
  induction n with
  | zero => intro v h; have := v.size_pos; omega
  | succ n ih =>
    intro v h
    cases v with
    | null => simp [JSON.size, JSON.render]
    | bool b => cases b <;> simp [JSON.size, JSON.render]
    | number x =>
      obtain ⟨c, t, hc, _⟩ := renderNumber_head x []
      rw [List.append_nil] at hc
      simp [JSON.size, JSON.render, hc]
    | string s => simp [JSON.size, JSON.render, renderString]
    | array es =>
      have := sizeElems_le_length es (fun x hx => ih x (by
        have := size_le_of_mem_elems hx
        simp only [JSON.size] at h
        omega))
      simp only [JSON.size, JSON.render, List.length_cons]
      omega
    | object ms =>
      have := sizeMembers_le_length ms (fun x hx => ih x.2 (by
        have := size_le_of_mem_members hx
        simp only [JSON.size] at h
        omega))
      simp only [JSON.size, JSON.render, List.length_cons]
      omega

/-- Parsing the text written for a document gives the document back. -/
theorem JSON.parse_render (v : JSON) : JSON.parse v.render = some v := by
  have hs := size_le_length_bounded v.size v (Nat.le_refl _)
  have h := roundTrips v (v.render.length + 1) [] (by omega) rfl
  rw [List.append_nil] at h
  simp [JSON.parse, h, skipWs]

/-- Decoding the bytes written for a document gives the document back. -/
theorem JSON.decode_encode (v : JSON) : JSON.decode v.encode = some v := by
  simp [JSON.decode, JSON.encode, utf8Decode_utf8Encode, JSON.parse_render]

/-! ## Encoding Go values -/

theorem sortByKey_of_ascending {α : Type} (l : List (String × α)) (h : keysAscending l = true) :
    sortByKey l = l := by
  induction l with
  | nil => rfl
  | cons x xs ih =>
    cases xs with
    | nil => rfl
    | cons y ys =>
      simp only [keysAscending, Bool.and_eq_true] at h
      simp only [sortByKey] at ih ⊢
      rw [ih h.2]
      simp [insertByKey, h.1]

theorem keysAscending_entriesToJSON (es : List (String × GoValue)) :
    keysAscending (GoValue.entriesToJSON es) = keysAscending es := by
  induction es with
  | nil => rfl
  | cons x xs ih =>
    obtain ⟨k, v⟩ := x
    cases xs with
    | nil => rfl
    | cons y ys =>
      obtain ⟨k2, v2⟩ := y
      simp only [GoValue.entriesToJSON, keysAscending] at ih ⊢
      rw [ih]

mutual
theorem toJSON_of_representable : (v : GoValue) → v.representable = true →
    ∃ j, v.toJSON = .ok j ∧ j.toGo = v
  | .nil, _ => ⟨.null, rfl, rfl⟩
  | .bool b, _ => ⟨.bool b, rfl, rfl⟩
  | .number n, _ => ⟨.number n, rfl, rfl⟩
  | .string s, _ => ⟨.string s, rfl, rfl⟩
  | .nonFinite, h => by simp [GoValue.representable] at h
  | .unsupported, h => by simp [GoValue.representable] at h
  | .slice es, h => by
    obtain ⟨js, h1, h2⟩ := elemsToJSON_of_representable es (by simpa [GoValue.representable] using h)
    exact ⟨.array js, by simp [GoValue.toJSON, h1], by simp [JSON.toGo, h2]⟩
  | .map es, h => by
    simp only [GoValue.representable, Bool.and_eq_true] at h
    obtain ⟨ms, h1, h2⟩ := entriesToJSON_of_representable es h.2
    have hs : sortByKey (GoValue.entriesToJSON es) = GoValue.entriesToJSON es :=
      sortByKey_of_ascending _ (by rw [keysAscending_entriesToJSON]; exact h.1)
    exact ⟨.object ms, by simp [GoValue.toJSON, hs, h1], by simp [JSON.toGo, h2]⟩
theorem elemsToJSON_of_representable : (es : List GoValue) → GoValue.elemsRepresentable es = true →
    ∃ js, GoValue.elemsToJSON es = .ok js ∧ JSON.elemsToGo js = es
  | [], _ => ⟨[], rfl, rfl⟩
  | v :: vs, h => by
    simp only [GoValue.elemsRepresentable, Bool.and_eq_true] at h
    obtain ⟨j, h1, h2⟩ := toJSON_of_representable v h.1
    obtain ⟨js, h3, h4⟩ := elemsToJSON_of_representable vs h.2
    exact ⟨j :: js, by simp [GoValue.elemsToJSON, h1, h3], by simp [JSON.elemsToGo, h2, h4]⟩
theorem entriesToJSON_of_representable : (es : List (String × GoValue)) →
    GoValue.entriesRepresentable es = true →
    ∃ ms, collectMembers (GoValue.entriesToJSON es) = .ok ms ∧ JSON.membersToGo ms = es
  | [], _ => ⟨[], rfl, rfl⟩
  | (k, v) :: rest, h => by
    simp only [GoValue.entriesRepresentable, Bool.and_eq_true] at h
    obtain ⟨j, h1, h2⟩ := toJSON_of_representable v h.1
    obtain ⟨ms, h3, h4⟩ := entriesToJSON_of_representable rest h.2
    exact ⟨(k, j) :: ms, by simp [GoValue.entriesToJSON, collectMembers, h1, h3],
      by simp [JSON.membersToGo, h2, h4]⟩
end

theorem goMap_toJSON_of_representable (m : GoMap) (h : m.representable = true) :
    ∃ j, m.toJSON = .ok j ∧ j.toGoMap = some m := by
  cases m with
  | none => exact ⟨.null, rfl, rfl⟩
  | some es =>
    obtain ⟨j, h1, h2⟩ := Sigstore.toJSON_of_representable (.map es) h
    cases j with
    | object ms =>
      refine ⟨.object ms, h1, ?_⟩
      simp only [JSON.toGo, GoValue.map.injEq] at h2
      simp [JSON.toGoMap, h2]
    | _ => simp [JSON.toGo] at h2

/-! ## What `SignImage` and the encoders return -/

theorem jsonMarshalCosign_ok {p : Cosign} {payload : Bytes} (h : jsonMarshalCosign p = .ok payload) :
    p.MarshalJSON = .ok payload := by
  unfold jsonMarshalCosign at h
  cases hm : p.MarshalJSON with
  | error e => rw [hm] at h; cases h
  | ok b => rw [hm] at h; cases h; rfl

theorem MarshalJSON_ok {p : Cosign} {payload : Bytes} (h : p.MarshalJSON = .ok payload) :
    ∃ opt, GoMap.toJSON p.Annotations = .ok opt
      ∧ payload = (p.SimpleContainerImage.document opt).encode := by
  unfold Cosign.MarshalJSON jsonMarshalSimpleContainerImage SimpleContainerImage.toJSON at h
  have hopt : p.SimpleContainerImage.Optional = p.Annotations := rfl
  rw [hopt] at h
  cases hm : GoMap.toJSON p.Annotations with
  | error e => rw [hm] at h; cases h
  | ok opt => rw [hm] at h; cases h; exact ⟨opt, rfl, rfl⟩

theorem MarshalJSON_of_toJSON {p : Cosign} {opt : JSON} (h : GoMap.toJSON p.Annotations = .ok opt) :
    p.MarshalJSON = .ok (p.SimpleContainerImage.document opt).encode := by
  have hopt : p.SimpleContainerImage.Optional = p.Annotations := rfl
  simp only [Cosign.MarshalJSON, jsonMarshalSimpleContainerImage, SimpleContainerImage.toJSON,
    hopt, h]

theorem SignImage_of_marshal_error {σ : Type} (signer : SignerVerifier σ)
    {claimedIdentity : Reference} {manifestDigest : String} {optionalAnnotations : GoMap} (st : σ)
    {e : GoError}
    (hm : jsonMarshalCosign ⟨claimedIdentity, manifestDigest, optionalAnnotations⟩ = .error e) :
    SignImage signer claimedIdentity manifestDigest optionalAnnotations st
      = (⟨none, none, some (.wrapError "failed to marshal payload to JSON: %w" e)⟩, st) := by
  simp only [SignImage, hm]

theorem SignImage_of_sign_error {σ : Type} {signer : SignerVerifier σ}
    {claimedIdentity : Reference} {manifestDigest : String} {optionalAnnotations : GoMap} {st st1 : σ}
    {b : Bytes} {sig : Option Bytes} {e : GoError}
    (hm : jsonMarshalCosign ⟨claimedIdentity, manifestDigest, optionalAnnotations⟩ = .ok b)
    (hs : signer.SignMessage b st = ((sig, some e), st1)) :
    SignImage signer claimedIdentity manifestDigest optionalAnnotations st
      = (⟨none, none, some (.wrapError "failed to sign payload: %w" e)⟩, st1) := by
  simp only [SignImage, hm, hs]

theorem SignImage_of_signed {σ : Type} {signer : SignerVerifier σ}
    {claimedIdentity : Reference} {manifestDigest : String} {optionalAnnotations : GoMap} {st st1 : σ}
    {b : Bytes} {sig : Option Bytes}
    (hm : jsonMarshalCosign ⟨claimedIdentity, manifestDigest, optionalAnnotations⟩ = .ok b)
    (hs : signer.SignMessage b st = ((sig, none), st1)) :
    SignImage signer claimedIdentity manifestDigest optionalAnnotations st
      = (⟨some b, sig, none⟩, st1) := by
  simp only [SignImage, hm, hs]

theorem SignImage_payload {σ : Type} {signer : SignerVerifier σ} {claimedIdentity : Reference}
    {manifestDigest : String} {optionalAnnotations : GoMap} {st : σ} {payload : Bytes}
    (h : (SignImage signer claimedIdentity manifestDigest optionalAnnotations st).1.payload
      = some payload) :
    jsonMarshalCosign ⟨claimedIdentity, manifestDigest, optionalAnnotations⟩ = .ok payload := by
  cases hm : jsonMarshalCosign ⟨claimedIdentity, manifestDigest, optionalAnnotations⟩ with
  | error e => rw [SignImage_of_marshal_error signer st hm] at h; simp at h
  | ok b =>
    rcases hs : signer.SignMessage b st with ⟨⟨sig, err⟩, st1⟩
    cases err with
    | some e => rw [SignImage_of_sign_error hm hs] at h; simp at h
    | none =>
      rw [SignImage_of_signed hm hs] at h
      simp only [Option.some.injEq] at h
      rw [h]

theorem SignImage_recorded_calls {σ : Type} (signer : SignerVerifier σ) (claimedIdentity : Reference)
    (manifestDigest : String) (optionalAnnotations : GoMap) (st : σ) :
    (SignImage signer.recording claimedIdentity manifestDigest optionalAnnotations (st, [])).2.2
      = (match jsonMarshalCosign ⟨claimedIdentity, manifestDigest, optionalAnnotations⟩ with
        | .ok payload => [SignerCall.SignMessage payload]
        | .error _ => []) := by
  cases hm : jsonMarshalCosign ⟨claimedIdentity, manifestDigest, optionalAnnotations⟩ with
  | error e =>
    rw [SignImage_of_marshal_error signer.recording (st, []) hm]
  | ok b =>
    rcases hs : signer.SignMessage b st with ⟨⟨sig, err⟩, st1⟩
    have hr : signer.recording.SignMessage b (st, [])
        = ((sig, err), (st1, [SignerCall.SignMessage b])) := by
      simp [SignerVerifier.recording, hs]
    cases err with
    | some e => rw [SignImage_of_sign_error hm hr]
    | none => rw [SignImage_of_signed hm hr]

theorem SignImage_final_state {σ : Type} (signer : SignerVerifier σ) (claimedIdentity : Reference)
    (manifestDigest : String) (optionalAnnotations : GoMap) (st : σ) :
    (SignImage signer claimedIdentity manifestDigest optionalAnnotations st).2
      = (match jsonMarshalCosign ⟨claimedIdentity, manifestDigest, optionalAnnotations⟩ with
        | .ok payload => (signer.SignMessage payload st).2
        | .error _ => st) := by
  cases hm : jsonMarshalCosign ⟨claimedIdentity, manifestDigest, optionalAnnotations⟩ with
  | error e => rw [SignImage_of_marshal_error signer st hm]
  | ok b =>
    rcases hs : signer.SignMessage b st with ⟨⟨sig, err⟩, st1⟩
    cases err with
    | some e => rw [SignImage_of_sign_error hm hs]; simp only [hs]
    | none => rw [SignImage_of_signed hm hs]; simp only [hs]

theorem jsonMarshalCosign_of_MarshalJSON {p : Cosign} {payload : Bytes}
    (h : p.MarshalJSON = .ok payload) : jsonMarshalCosign p = .ok payload := by
  simp only [jsonMarshalCosign, h]

/-- When the encoding succeeds and the signer returns no error, `SignImage`
returns no error and returns the encoded payload. -/
theorem SignImage_returns_payload {σ : Type} (signer : SignerVerifier σ) (p : Cosign) (st : σ)
    {payload : Bytes} (hm : p.MarshalJSON = .ok payload)
    (hs : (signer.SignMessage payload st).1.2 = none) :
    (SignImage signer p.ClaimedIdentity p.ImageDigest p.Annotations st).1.err = none
    ∧ (SignImage signer p.ClaimedIdentity p.ImageDigest p.Annotations st).1.payload
      = some payload := by
  have hj : jsonMarshalCosign ⟨p.ClaimedIdentity, p.ImageDigest, p.Annotations⟩ = .ok payload :=
    jsonMarshalCosign_of_MarshalJSON hm
  rcases hsm : signer.SignMessage payload st with ⟨⟨sig, err⟩, st1⟩
  rw [hsm] at hs
  simp only at hs
  subst hs
  rw [SignImage_of_signed hj hsm]
  exact ⟨rfl, rfl⟩

/-- When the encoding succeeds, the one call `SignImage` makes to the signer is
`SignMessage` on the encoded payload. -/
theorem SignImage_hands_payload {σ : Type} (signer : SignerVerifier σ) (p : Cosign) (st : σ)
    {payload : Bytes} (hm : p.MarshalJSON = .ok payload) :
    (SignImage signer.recording p.ClaimedIdentity p.ImageDigest p.Annotations (st, [])).2.2
      = [SignerCall.SignMessage payload] := by
  have hj : jsonMarshalCosign ⟨p.ClaimedIdentity, p.ImageDigest, p.Annotations⟩ = .ok payload :=
    jsonMarshalCosign_of_MarshalJSON hm
  rw [SignImage_recorded_calls, hj]

/-- C1. Whenever `SignImage` returns without error, it returns a payload, and
the signature it returns is what the signer's `SignMessage` gave for exactly
those payload bytes (and the signer is left in the state of that one call). -/
theorem SignImage_signature_over_returned_payload {σ : Type} (signer : SignerVerifier σ)
    (claimedIdentity : Reference) (manifestDigest : String) (optionalAnnotations : GoMap) (st : σ)
    (h : (SignImage signer claimedIdentity manifestDigest optionalAnnotations st).1.err = none) :
    ∃ payload,
      (SignImage signer claimedIdentity manifestDigest optionalAnnotations st).1.payload = some payload
      ∧ signer.SignMessage payload st
        = (((SignImage signer claimedIdentity manifestDigest optionalAnnotations st).1.signature, none),
            (SignImage signer claimedIdentity manifestDigest optionalAnnotations st).2) := by
  cases hm : jsonMarshalCosign ⟨claimedIdentity, manifestDigest, optionalAnnotations⟩ with
  | error e => rw [SignImage_of_marshal_error signer st hm] at h; simp at h
  | ok b =>
    rcases hs : signer.SignMessage b st with ⟨⟨sig, err⟩, st1⟩
    cases err with
    | some e => rw [SignImage_of_sign_error hm hs] at h; simp at h
    | none =>
      rw [SignImage_of_signed hm hs]
      exact ⟨b, rfl, hs⟩

set_option maxRecDepth 1000000 in
/-- C1, at the first test case: the example signer, started at 7, signs the encoded payload. -/
theorem SignImage_signature_over_returned_payload_witness :
    (SignImage exampleSigner exampleDigest.toReference validDigest exampleClaims 7).1.err = none
    ∧ ∃ payload,
      (SignImage exampleSigner exampleDigest.toReference validDigest exampleClaims 7).1.payload
        = some payload
      ∧ exampleSigner.SignMessage payload 7
        = (((SignImage exampleSigner exampleDigest.toReference validDigest exampleClaims 7).1.signature,
            none),
            (SignImage exampleSigner exampleDigest.toReference validDigest exampleClaims 7).2) :=
  ⟨by decide, SignImage_signature_over_returned_payload exampleSigner exampleDigest.toReference
    validDigest exampleClaims 7 (by decide)⟩

/-- C2. `SimpleContainerImage()` sets the type to the fixed constant, the
identity to the name of the claimed identity, the digest to the image digest
and the optional map to the annotations; and the payload `SignImage` encodes,
hands to the signer and returns is the encoding of this value built from its
own arguments. -/
theorem SimpleContainerImage_fields {σ : Type} (p : Cosign) (signer : SignerVerifier σ)
    (claimedIdentity : Reference) (manifestDigest : String) (optionalAnnotations : GoMap) (st : σ) :
    p.SimpleContainerImage.Critical.Type_ = CosignSignatureType
    ∧ CosignSignatureType = "cosign container image signature"
    ∧ p.SimpleContainerImage.Critical.Identity.DockerReference = p.ClaimedIdentity.Name
    ∧ p.SimpleContainerImage.Critical.Image.DockerManifestDigest = p.ImageDigest
    ∧ p.SimpleContainerImage.Optional = p.Annotations
    ∧ ((SignImage signer claimedIdentity manifestDigest optionalAnnotations st).1.payload = none
      ∨ (SignImage signer claimedIdentity manifestDigest optionalAnnotations st).1.payload
        = (jsonMarshalSimpleContainerImage
            { Critical :=
                { Identity := { DockerReference := claimedIdentity.Name }
                  Image := { DockerManifestDigest := manifestDigest }
                  Type_ := CosignSignatureType }
              Optional := optionalAnnotations }).toOption)
    ∧ (SignImage signer.recording claimedIdentity manifestDigest optionalAnnotations (st, [])).2.2
      = (match jsonMarshalSimpleContainerImage
            { Critical :=
                { Identity := { DockerReference := claimedIdentity.Name }
                  Image := { DockerManifestDigest := manifestDigest }
                  Type_ := CosignSignatureType }
              Optional := optionalAnnotations } with
        | .ok payload => [SignerCall.SignMessage payload]
        | .error _ => []) := by
  refine ⟨rfl, rfl, rfl, rfl, rfl, ?_, ?_⟩
  · cases hp : (SignImage signer claimedIdentity manifestDigest optionalAnnotations st).1.payload with
    | none => exact Or.inl rfl
    | some payload =>
      right
      have h := jsonMarshalCosign_ok (SignImage_payload hp)
      unfold Cosign.MarshalJSON Cosign.SimpleContainerImage at h
      simp only at h
      rw [h]
      rfl
  · rw [SignImage_recorded_calls]
    unfold jsonMarshalCosign Cosign.MarshalJSON Cosign.SimpleContainerImage
    simp only
    cases jsonMarshalSimpleContainerImage
        { Critical :=
            { Identity := { DockerReference := claimedIdentity.Name }
              Image := { DockerManifestDigest := manifestDigest }
              Type_ := CosignSignatureType }
          Optional := optionalAnnotations } with
    | error e => rfl
    | ok b => rfl

theorem decode_MarshalJSON {p : Cosign} {payload : Bytes} (h : p.MarshalJSON = .ok payload) :
    ∃ opt, GoMap.toJSON p.Annotations = .ok opt
      ∧ JSON.decode payload = some (p.SimpleContainerImage.document opt) := by
  obtain ⟨opt, h1, h2⟩ := MarshalJSON_ok h
  exact ⟨opt, h1, by rw [h2, JSON.decode_encode]⟩

theorem document_identity (s : SimpleContainerImage) (opt : JSON) :
    (s.document opt).path ["critical", "identity", "docker-reference"]
      = some (.string s.Critical.Identity.DockerReference) := by
  rfl

theorem document_image (s : SimpleContainerImage) (opt : JSON) :
    (s.document opt).path ["critical", "image", "docker-manifest-digest"]
      = some (.string s.Critical.Image.DockerManifestDigest) := by
  rfl

theorem document_type (s : SimpleContainerImage) (opt : JSON) :
    (s.document opt).path ["critical", "type"] = some (.string s.Critical.Type_) := by
  rfl

theorem document_optional (s : SimpleContainerImage) (opt : JSON) :
    (s.document opt).member "optional" = some opt := by
  rfl

/-- C5. `SignImage` returns an error exactly when encoding the payload fails or
the signer's `SignMessage` returns an error; then the payload and the signature
it returns are both nil, and the error wraps that encoding or signing error. -/
theorem SignImage_error_iff {σ : Type} (signer : SignerVerifier σ) (claimedIdentity : Reference)
    (manifestDigest : String) (optionalAnnotations : GoMap) (st : σ) :
    ((SignImage signer claimedIdentity manifestDigest optionalAnnotations st).1.err ≠ none ↔
      ((∃ e, jsonMarshalCosign ⟨claimedIdentity, manifestDigest, optionalAnnotations⟩ = .error e)
        ∨ ∃ payload e,
          jsonMarshalCosign ⟨claimedIdentity, manifestDigest, optionalAnnotations⟩ = .ok payload
          ∧ (signer.SignMessage payload st).1.2 = some e))
    ∧ ((SignImage signer claimedIdentity manifestDigest optionalAnnotations st).1.err ≠ none →
      (SignImage signer claimedIdentity manifestDigest optionalAnnotations st).1.payload = none
      ∧ (SignImage signer claimedIdentity manifestDigest optionalAnnotations st).1.signature = none)
    ∧ (∀ e, (SignImage signer claimedIdentity manifestDigest optionalAnnotations st).1.err = some e →
      ∃ cause, e.Unwrap = some cause
        ∧ (jsonMarshalCosign ⟨claimedIdentity, manifestDigest, optionalAnnotations⟩ = .error cause
          ∨ ∃ payload,
            jsonMarshalCosign ⟨claimedIdentity, manifestDigest, optionalAnnotations⟩ = .ok payload
            ∧ (signer.SignMessage payload st).1.2 = some cause)) := by
  cases hm : jsonMarshalCosign ⟨claimedIdentity, manifestDigest, optionalAnnotations⟩ with
  | error e =>
    rw [SignImage_of_marshal_error signer st hm]
    refine ⟨⟨fun _ => Or.inl ⟨e, rfl⟩, fun _ => by simp⟩, fun _ => ⟨rfl, rfl⟩, ?_⟩
    intro e1 h1
    simp only [Option.some.injEq] at h1
    subst h1
    exact ⟨e, rfl, Or.inl rfl⟩
  | ok b =>
    rcases hs : signer.SignMessage b st with ⟨⟨sig, err⟩, st1⟩
    cases err with
    | some e =>
      rw [SignImage_of_sign_error hm hs]
      refine ⟨⟨fun _ => Or.inr ⟨b, e, rfl, by rw [hs]⟩, fun _ => by simp⟩, fun _ => ⟨rfl, rfl⟩, ?_⟩
      intro e1 h1
      simp only [Option.some.injEq] at h1
      subst h1
      exact ⟨e, rfl, Or.inr ⟨b, rfl, by rw [hs]⟩⟩
    | none =>
      rw [SignImage_of_signed hm hs]
      refine ⟨⟨fun h => absurd rfl h, ?_⟩, fun h => absurd rfl h, ?_⟩
      · rintro (⟨e, he⟩ | ⟨payload, e, hp, he⟩)
        · cases he
        · simp only [Except.ok.injEq] at hp
          subst hp
          rw [hs] at he
          simp at he
      · intro e1 h1
        simp at h1

/-- C9, as amended. `SignImage` calls the signer's `SignMessage` once, on the
encoded payload, when the encoding succeeds, and makes no call to the signer
when the encoding fails; it never calls it twice and never calls another
method. The signer is left in the state of that one call, or as it was. -/
theorem SignImage_signer_calls {σ : Type} (signer : SignerVerifier σ) (claimedIdentity : Reference)
    (manifestDigest : String) (optionalAnnotations : GoMap) (st : σ) :
    (SignImage signer.recording claimedIdentity manifestDigest optionalAnnotations (st, [])).2.2
      = (match jsonMarshalCosign ⟨claimedIdentity, manifestDigest, optionalAnnotations⟩ with
        | .ok payload => [SignerCall.SignMessage payload]
        | .error _ => [])
    ∧ (SignImage signer claimedIdentity manifestDigest optionalAnnotations st).2
      = (match jsonMarshalCosign ⟨claimedIdentity, manifestDigest, optionalAnnotations⟩ with
        | .ok payload => (signer.SignMessage payload st).2
        | .error _ => st) :=
  ⟨SignImage_recorded_calls signer claimedIdentity manifestDigest optionalAnnotations st,
    SignImage_final_state signer claimedIdentity manifestDigest optionalAnnotations st⟩

/-- C9, counterexample. With an annotation that JSON cannot hold (a NaN),
`SignImage` returns an error and has made no call to the signer at all. -/
theorem SignImage_without_signer_call :
    (SignImage exampleSigner.recording exampleDigest.toReference validDigest
        (some [("n", GoValue.nonFinite)]) (0, [])).2.2 = []
    ∧ (SignImage exampleSigner.recording exampleDigest.toReference validDigest
        (some [("n", GoValue.nonFinite)]) (0, [])).1.err
      = some (.wrapError "failed to marshal payload to JSON: %w"
          (.marshalerError .unsupportedValue)) := by
  exact ⟨rfl, rfl⟩

/-- C10, as amended. A payload built by `SimpleContainerImage` carries the name
of the claimed identity as `docker-reference` and the image digest as
`docker-manifest-digest`, unchanged, so each string is non-empty exactly when
the input it comes from is (no check of the code makes it so). The same two
strings are read from the bytes that `SignImage` encodes, hands to the signer
in its one call and, when the signer returns no error, returns. -/
theorem SimpleContainerImage_carries_strings (p : Cosign)
    (h : p.Annotations.representable = true) :
    p.SimpleContainerImage.Critical.Identity.DockerReference = p.ClaimedIdentity.Name
    ∧ p.SimpleContainerImage.Critical.Image.DockerManifestDigest = p.ImageDigest
    ∧ (p.SimpleContainerImage.Critical.Identity.DockerReference ≠ "" ↔ p.ClaimedIdentity.Name ≠ "")
    ∧ (p.SimpleContainerImage.Critical.Image.DockerManifestDigest ≠ "" ↔ p.ImageDigest ≠ "")
    ∧ ∃ payload doc, p.MarshalJSON = .ok payload ∧ JSON.decode payload = some doc
      ∧ doc.path ["critical", "identity", "docker-reference"]
        = some (.string p.ClaimedIdentity.Name)
      ∧ doc.path ["critical", "image", "docker-manifest-digest"] = some (.string p.ImageDigest)
      ∧ ∀ (σ : Type) (signer : SignerVerifier σ) (st : σ),
        (SignImage signer.recording p.ClaimedIdentity p.ImageDigest p.Annotations (st, [])).2.2
          = [SignerCall.SignMessage payload]
        ∧ ((signer.SignMessage payload st).1.2 = none →
          (SignImage signer p.ClaimedIdentity p.ImageDigest p.Annotations st).1.err = none
          ∧ (SignImage signer p.ClaimedIdentity p.ImageDigest p.Annotations st).1.payload
            = some payload) := by
  obtain ⟨opt, h1, _⟩ := goMap_toJSON_of_representable p.Annotations h
  have hm := MarshalJSON_of_toJSON h1
  refine ⟨rfl, rfl, Iff.rfl, Iff.rfl, _, _, hm, JSON.decode_encode _, document_identity _ opt,
    document_image _ opt, ?_⟩
  intro σ signer st
  exact ⟨SignImage_hands_payload signer p st hm, SignImage_returns_payload signer p st hm⟩

set_option maxRecDepth 1000000 in
/-- C10, as amended, at the payload of the first test case and the example
signer: `SignImage` returns the payload, and the two strings read from it are
the full name of the digest reference and the digest. -/
theorem SimpleContainerImage_carries_strings_witness :
    exampleCosign.Annotations.representable = true
    ∧ exampleCosign.SimpleContainerImage.Critical.Identity.DockerReference
      = "example.com/ecdsa@sha256:d34db33fd34db33fd34db33fd34db33fd34db33fd34db33fd34db33fd34db33f"
    ∧ exampleCosign.SimpleContainerImage.Critical.Image.DockerManifestDigest
      = "sha256:d34db33fd34db33fd34db33fd34db33fd34db33fd34db33fd34db33fd34db33f"
    ∧ ∃ payload doc, exampleCosign.MarshalJSON = .ok payload ∧ JSON.decode payload = some doc
      ∧ doc.path ["critical", "identity", "docker-reference"]
        = some (.string exampleCosign.ClaimedIdentity.Name)
      ∧ doc.path ["critical", "image", "docker-manifest-digest"]
        = some (.string exampleCosign.ImageDigest)
      ∧ (SignImage exampleSigner.recording exampleCosign.ClaimedIdentity exampleCosign.ImageDigest
          exampleCosign.Annotations (0, [])).2.2 = [SignerCall.SignMessage payload]
      ∧ (SignImage exampleSigner exampleCosign.ClaimedIdentity exampleCosign.ImageDigest
          exampleCosign.Annotations 0).1.err = none
      ∧ (SignImage exampleSigner exampleCosign.ClaimedIdentity exampleCosign.ImageDigest
          exampleCosign.Annotations 0).1.payload = some payload := by
  obtain ⟨h1, h2, _, _, payload, doc, hm, hd, hi, hg, hs⟩ :=
    SimpleContainerImage_carries_strings exampleCosign (by decide)
  exact ⟨by decide, h1, h2, payload, doc, hm, hd, hi, hg, (hs Nat exampleSigner 0).1,
    ((hs Nat exampleSigner 0).2 rfl).1, ((hs Nat exampleSigner 0).2 rfl).2⟩

set_option maxRecDepth 1000000 in
/-- C10, counterexample. Signing with an empty manifest digest succeeds, and
the payload handed to the signer has an empty `docker-manifest-digest`; signing
a reference whose `Name()` is empty succeeds as well, and the payload has an
empty `docker-reference`. -/
theorem SignImage_empty_strings :
    (Cosign.SimpleContainerImage ⟨exampleDigest.toReference, "", none⟩).Critical.Image.DockerManifestDigest
      = ""
    ∧ (SignImage exampleSigner exampleDigest.toReference "" none 0).1.err = none
    ∧ ((SignImage exampleSigner exampleDigest.toReference "" none 0).1.payload.bind JSON.decode).bind
        (JSON.path ["critical", "image", "docker-manifest-digest"]) = some (.string "")
    ∧ (Cosign.SimpleContainerImage ⟨emptyNameReference, validDigest, none⟩).Critical.Identity.DockerReference
      = ""
    ∧ (SignImage exampleSigner emptyNameReference validDigest none 0).1.err = none
    ∧ ((SignImage exampleSigner emptyNameReference validDigest none 0).1.payload.bind JSON.decode).bind
        (JSON.path ["critical", "identity", "docker-reference"]) = some (.string "") := by
  exact ⟨rfl, rfl, rfl, rfl, rfl, rfl⟩

theorem GoMap.toJSON_shape {m : GoMap} {opt : JSON} (h : m.toJSON = .ok opt) :
    (m = none ∧ opt = .null)
    ∨ ∃ entries members, m = some entries ∧ opt = .object members
        ∧ GoValue.toJSON (.map entries) = .ok (.object members) := by
  cases m with
  | none =>
    simp only [GoMap.toJSON, Except.ok.injEq] at h
    exact Or.inl ⟨rfl, h.symm⟩
  | some es =>
    right
    simp only [GoMap.toJSON] at h
    have h0 := h
    simp only [GoValue.toJSON] at h
    cases hc : collectMembers (sortByKey (GoValue.entriesToJSON es)) with
    | error e => rw [hc] at h; cases h
    | ok ms =>
      rw [hc] at h
      simp only [Except.ok.injEq] at h
      subst h
      exact ⟨es, ms, rfl, rfl, h0⟩

/-- C3, as amended. For every payload whose metadata JSON can hold,
`Cosign.MarshalJSON` succeeds and `Cosign.UnmarshalJSON` applied to its output
fails, with the error that says it is unimplemented; the identity, the digest,
the type and the metadata are read back unchanged from the encoded bytes as a
JSON document. -/
theorem MarshalJSON_then_UnmarshalJSON (p receiver : Cosign)
    (h : p.Annotations.representable = true) :
    ∃ payload, p.MarshalJSON = .ok payload
      ∧ receiver.UnmarshalJSON payload = .error unimplementedError
      ∧ ∃ doc opt, JSON.decode payload = some doc
        ∧ doc.path ["critical", "identity", "docker-reference"] = some (.string p.ClaimedIdentity.Name)
        ∧ doc.path ["critical", "image", "docker-manifest-digest"] = some (.string p.ImageDigest)
        ∧ doc.path ["critical", "type"] = some (.string CosignSignatureType)
        ∧ doc.member "optional" = some opt
        ∧ opt.toGoMap = some p.Annotations := by
  obtain ⟨opt, h1, h2⟩ := goMap_toJSON_of_representable p.Annotations h
  refine ⟨_, MarshalJSON_of_toJSON h1, rfl, _, opt, JSON.decode_encode _, ?_, ?_, ?_, ?_, h2⟩
  · exact document_identity _ opt
  · exact document_image _ opt
  · exact document_type _ opt
  · exact document_optional _ opt

/-- C3, as amended, at the payload of the first test case. -/
theorem MarshalJSON_then_UnmarshalJSON_witness :
    exampleCosign.Annotations.representable = true
    ∧ ∃ payload, exampleCosign.MarshalJSON = .ok payload
      ∧ exampleCosign.UnmarshalJSON payload = .error unimplementedError
      ∧ ∃ doc opt, JSON.decode payload = some doc
        ∧ doc.path ["critical", "identity", "docker-reference"]
          = some (.string exampleCosign.ClaimedIdentity.Name)
        ∧ doc.path ["critical", "image", "docker-manifest-digest"]
          = some (.string exampleCosign.ImageDigest)
        ∧ doc.path ["critical", "type"] = some (.string CosignSignatureType)
        ∧ doc.member "optional" = some opt
        ∧ opt.toGoMap = some exampleCosign.Annotations :=
  ⟨by decide, MarshalJSON_then_UnmarshalJSON exampleCosign exampleCosign (by decide)⟩

/-- C3, counterexample. The payload of the first test case is valid and is
encoded, and `Cosign.UnmarshalJSON` applied to the encoded bytes does not
succeed: it returns an error. -/
theorem UnmarshalJSON_fails_on_encoded_payload :
    exampleCosign.ClaimedIdentity.Name ≠ "" ∧ exampleCosign.ImageDigest ≠ ""
    ∧ ∃ payload, exampleCosign.MarshalJSON = .ok payload
      ∧ (¬ ∃ q, exampleCosign.UnmarshalJSON payload = .ok q)
      ∧ exampleCosign.UnmarshalJSON payload = .error unimplementedError := by
  have hm : exampleCosign.MarshalJSON = .ok (exampleCosign.SimpleContainerImage.document
      (.object [("creator", .string "ECDSA"), ("optional", .string "extras")])).encode :=
    MarshalJSON_of_toJSON rfl
  refine ⟨by decide, by decide, _, hm, ?_, rfl⟩
  rintro ⟨q, hq⟩
  cases hq

/-- C4, as amended. For every byte sequence whose critical section has a
duplicated `type`, `identity` or `image`, or a field beyond those three, or
lacks `identity` or `image`, `Cosign.UnmarshalJSON` fails: with the one error
it has, which says it is unimplemented. In none of these cases does it
succeed. -/
theorem UnmarshalJSON_fails_on_defective (p : Cosign) (data : Bytes)
    (_h : hasDuplicateCriticalField data = true ∨ hasUnrecognizedCriticalField data = true
      ∨ missesCriticalField data = true) :
    p.UnmarshalJSON data = .error unimplementedError ∧ ¬ ∃ q, p.UnmarshalJSON data = .ok q := by
  refine ⟨rfl, ?_⟩
  rintro ⟨q, hq⟩
  cases hq

set_option maxRecDepth 1000000 in
/-- C4, as amended, at the payload that names `type` twice. -/
theorem UnmarshalJSON_fails_on_defective_witness :
    (hasDuplicateCriticalField duplicateTypeInput = true
      ∨ hasUnrecognizedCriticalField duplicateTypeInput = true
      ∨ missesCriticalField duplicateTypeInput = true)
    ∧ exampleCosign.UnmarshalJSON duplicateTypeInput = .error unimplementedError
    ∧ ¬ ∃ q, exampleCosign.UnmarshalJSON duplicateTypeInput = .ok q :=
  ⟨Or.inl (by decide),
    UnmarshalJSON_fails_on_defective exampleCosign duplicateTypeInput (Or.inl (by decide))⟩

set_option maxRecDepth 1000000 in
/-- C4, counterexample. On a payload with `type` twice, on one with a fourth
critical field and on one without `identity`, `Cosign.UnmarshalJSON` returns
one and the same error, which is of none of the kinds `DuplicateField`,
`UnrecognizedField`, `MissingField`. -/
theorem UnmarshalJSON_error_kind :
    hasDuplicateCriticalField duplicateTypeInput = true
    ∧ hasUnrecognizedCriticalField extraFieldInput = true
    ∧ missesCriticalField missingIdentityInput = true
    ∧ exampleCosign.UnmarshalJSON duplicateTypeInput = .error unimplementedError
    ∧ exampleCosign.UnmarshalJSON extraFieldInput = .error unimplementedError
    ∧ exampleCosign.UnmarshalJSON missingIdentityInput = .error unimplementedError
    ∧ unimplementedError.isKind .DuplicateField = false
    ∧ unimplementedError.isKind .UnrecognizedField = false
    ∧ unimplementedError.isKind .MissingField = false := by
  refine ⟨by decide, by decide, by decide, rfl, rfl, rfl, rfl, rfl, rfl⟩

set_option maxRecDepth 1000000 in
/-- C6, the code at the failing input. Signing the digest reference of the
first test case (as the claimed identity, with its digest string as the
manifest digest) succeeds, and the `docker-manifest-digest` of the payload is
the digest string; but its `docker-reference` is the full name
`example.com/ecdsa@sha256:d34d…`, where the claim and the test of the
repository expect the repository name `example.com/ecdsa`. -/
theorem SignImage_docker_reference_not_repository :
    (SignImage exampleSigner exampleDigest.toReference exampleDigest.DigestStr exampleClaims 0).1.err
      = none
    ∧ ((SignImage exampleSigner exampleDigest.toReference exampleDigest.DigestStr exampleClaims 0).1.payload.bind
        JSON.decode).bind (JSON.path ["critical", "image", "docker-manifest-digest"])
      = some (.string exampleDigest.DigestStr)
    ∧ ((SignImage exampleSigner exampleDigest.toReference exampleDigest.DigestStr exampleClaims 0).1.payload.bind
        JSON.decode).bind (JSON.path ["critical", "identity", "docker-reference"])
      = some (.string
          "example.com/ecdsa@sha256:d34db33fd34db33fd34db33fd34db33fd34db33fd34db33fd34db33fd34db33f")
    ∧ exampleDigest.Repository.Name = "example.com/ecdsa"
    ∧ "example.com/ecdsa@sha256:d34db33fd34db33fd34db33fd34db33fd34db33fd34db33fd34db33fd34db33f"
      ≠ exampleDigest.Repository.Name := by
  refine ⟨by rfl, by rfl, by rfl, rfl, by decide⟩

/-- C7. For every annotations map of values JSON can hold, `Cosign.MarshalJSON`
succeeds and its payload bytes parse to a document whose `optional` member,
read as a Go map, is the annotations map passed in; and these are the bytes
that `SignImage` hands to the signer in its one call and, whenever the signer
returns no error, returns without error. -/
theorem annotations_survive_encoding (p : Cosign) (h : p.Annotations.representable = true) :
    ∃ payload doc opt, p.MarshalJSON = .ok payload ∧ JSON.decode payload = some doc
      ∧ doc.member "optional" = some opt ∧ opt.toGoMap = some p.Annotations
      ∧ ∀ (σ : Type) (signer : SignerVerifier σ) (st : σ),
        (SignImage signer.recording p.ClaimedIdentity p.ImageDigest p.Annotations (st, [])).2.2
          = [SignerCall.SignMessage payload]
        ∧ ((signer.SignMessage payload st).1.2 = none →
          (SignImage signer p.ClaimedIdentity p.ImageDigest p.Annotations st).1.err = none
          ∧ (SignImage signer p.ClaimedIdentity p.ImageDigest p.Annotations st).1.payload
            = some payload) := by
  obtain ⟨opt, h1, h2⟩ := goMap_toJSON_of_representable p.Annotations h
  have hm := MarshalJSON_of_toJSON h1
  refine ⟨_, _, opt, hm, JSON.decode_encode _, document_optional _ opt, h2, ?_⟩
  intro σ signer st
  exact ⟨SignImage_hands_payload signer p st hm, SignImage_returns_payload signer p st hm⟩

/-- C7, at claims with the number `6.022e23`, a nested map, a list and a string
to escape, signed by the example signer: `SignImage` returns without error, and
the `optional` member of the payload it returns is the claims map. -/
theorem annotations_survive_encoding_witness :
    (Cosign.mk exampleDigest.toReference validDigest exampleNumberClaims).Annotations.representable
      = true
    ∧ (SignImage exampleSigner exampleDigest.toReference validDigest exampleNumberClaims 0).1.err
      = none
    ∧ ∃ payload doc opt,
      (SignImage exampleSigner exampleDigest.toReference validDigest exampleNumberClaims 0).1.payload
        = some payload
      ∧ (SignImage exampleSigner.recording exampleDigest.toReference validDigest
          exampleNumberClaims (0, [])).2.2 = [SignerCall.SignMessage payload]
      ∧ (Cosign.mk exampleDigest.toReference validDigest exampleNumberClaims).MarshalJSON
        = .ok payload
      ∧ JSON.decode payload = some doc
      ∧ doc.member "optional" = some opt ∧ opt.toGoMap = some exampleNumberClaims := by
  obtain ⟨payload, doc, opt, hm, hd, ho, hg, hs⟩ :=
    annotations_survive_encoding (Cosign.mk exampleDigest.toReference validDigest exampleNumberClaims)
      (by decide)
  exact ⟨by decide, ((hs Nat exampleSigner 0).2 rfl).1, payload, doc, opt,
    ((hs Nat exampleSigner 0).2 rfl).2, (hs Nat exampleSigner 0).1, hm, hd, ho, hg⟩

/-- C8, as amended. For every `Cosign` value whose encoding succeeds, the
encoded document is an object with exactly the members `critical` and
`optional`, once each and in this order; `critical` is an object with exactly
the members `identity` (an object with the one member `docker-reference`, the
claimed-identity string), `image` (an object with the one member
`docker-manifest-digest`, the digest string) and `type` (the fixed constant);
and `optional` is always present: `null` when the annotations map is nil, and
otherwise the object written for the map. -/
theorem MarshalJSON_wire_format (p : Cosign) (payload : Bytes) (h : p.MarshalJSON = .ok payload) :
    ∃ opt, JSON.decode payload = some (.object
        [("critical", .object
            [("identity", .object [("docker-reference", .string p.ClaimedIdentity.Name)]),
             ("image", .object [("docker-manifest-digest", .string p.ImageDigest)]),
             ("type", .string "cosign container image signature")]),
         ("optional", opt)])
      ∧ ((p.Annotations = none ∧ opt = .null)
        ∨ ∃ entries members, p.Annotations = some entries ∧ opt = .object members
            ∧ GoValue.toJSON (.map entries) = .ok (.object members)) := by
  obtain ⟨opt, h1, hd⟩ := decode_MarshalJSON h
  exact ⟨opt, hd, GoMap.toJSON_shape h1⟩

/-- C8, as amended, at the payload of the first test case. -/
theorem MarshalJSON_wire_format_witness :
    exampleCosign.MarshalJSON = .ok (exampleCosign.SimpleContainerImage.document
        (.object [("creator", .string "ECDSA"), ("optional", .string "extras")])).encode
    ∧ ∃ opt, JSON.decode (exampleCosign.SimpleContainerImage.document
        (.object [("creator", .string "ECDSA"), ("optional", .string "extras")])).encode
        = some (.object
          [("critical", .object
              [("identity", .object
                [("docker-reference", .string exampleCosign.ClaimedIdentity.Name)]),
               ("image", .object [("docker-manifest-digest", .string exampleCosign.ImageDigest)]),
               ("type", .string "cosign container image signature")]),
           ("optional", opt)])
      ∧ ((exampleCosign.Annotations = none ∧ opt = .null)
        ∨ ∃ entries members, exampleCosign.Annotations = some entries ∧ opt = .object members
            ∧ GoValue.toJSON (.map entries) = .ok (.object members)) :=
  ⟨MarshalJSON_of_toJSON rfl,
    MarshalJSON_wire_format exampleCosign _ (MarshalJSON_of_toJSON rfl)⟩

set_option maxRecDepth 1000000 in
/-- C8, counterexample. With a nil annotations map the encoded document has an
`optional` member, and it is `null`: neither an object nor absent. -/
theorem MarshalJSON_nil_annotations :
    Cosign.MarshalJSON ⟨exampleDigest.toReference, validDigest, none⟩ = .ok nilAnnotationsPayload
    ∧ (JSON.decode nilAnnotationsPayload).bind JSON.keys = some ["critical", "optional"]
    ∧ (JSON.decode nilAnnotationsPayload).bind (JSON.member "optional") = some .null := by
  exact ⟨by rfl, by rfl, by rfl⟩

end Sigstore
